import Mathlib

/-!
Shallow embedding of the WGSL compiler of `cubecl-wgpu`
(`crates/cubecl-wgpu/src/compiler/wgsl/compiler.rs`) together with the parts
of the `cubecl-core` IR and of the `wgsl` target dialect that the compiler
consumes and produces.  Rust `panic!` / `unwrap` failures are modelled with
`Except CErr`, machine integers with `Nat`/`Int` (no arithmetic overflows
occur in the modelled code paths), and the mutable `WgslCompiler` object with
an explicit state record threaded through the translation.
-/

namespace Cubecl

/-! ## Source IR: element types and items (`cubecl-core` `ir`) -/

inductive FloatKind where
  | f16 | bf16 | tf32 | flex32 | f32 | f64
deriving DecidableEq, Repr

inductive IntKind where
  | i8 | i16 | i32 | i64
deriving DecidableEq, Repr

inductive UIntKind where
  | u8 | u16 | u32 | u64
deriving DecidableEq, Repr

inductive Elem where
  | float (k : FloatKind)
  | int (k : IntKind)
  | uint (k : UIntKind)
  | bool
  | atomicInt (k : IntKind)
  | atomicUInt (k : UIntKind)
deriving DecidableEq, Repr

/-- An IR item: an element type together with an optional vectorization
factor (the Rust side uses `Option<NonZero<u8>>`; `none` means scalar). -/
structure Item where
  elem : Elem
  vectorization : Option Nat
deriving DecidableEq, Repr

/-- Scalar constant values (`ConstantScalarValue`); the numeric payloads are
carried opaquely (float payloads as raw bit patterns), only the element kind
is ever inspected by the compiler. -/
inductive ConstVal where
  | int (v : Int) (k : IntKind)
  | float (bits : Int) (k : FloatKind)
  | uint (v : Nat)
  | bool (b : Bool)
deriving DecidableEq, Repr

def ConstVal.elem : ConstVal → Elem
  | .int _ k => .int k
  | .float _ k => .float k
  | .uint _ => .uint .u32
  | .bool _ => .bool

/-! ## Source IR: variables -/

inductive Builtin where
  | absolutePos
  | unitPos
  | unitPosX | unitPosY | unitPosZ
  | cubePosX | cubePosY | cubePosZ
  | absolutePosX | absolutePosY | absolutePosZ
  | cubeDimX | cubeDimY | cubeDimZ
  | cubeCountX | cubeCountY | cubeCountZ
  | cubePos
  | cubeDim
  | cubeCount
  | subcubeDim
deriving DecidableEq, Repr

inductive VarKind where
  | globalInputArray (id : Nat)
  | globalScalar (id : Nat)
  | localVar (id : Nat) (depth : Nat)
  | versioned (id : Nat) (depth : Nat) (version : Nat)
  | localBinding (id : Nat)
  | slice (id : Nat) (depth : Nat)
  | globalOutputArray (id : Nat)
  | constantScalar (v : ConstVal)
  | sharedMemory (id : Nat) (length : Nat)
  | constantArray (id : Nat) (length : Nat)
  | localArray (id : Nat) (depth : Nat) (length : Nat)
  | builtin (b : Builtin)
  | matrix
deriving DecidableEq, Repr

structure Variable where
  kind : VarKind
  item : Item
deriving DecidableEq, Repr

/-- `Variable::index()` of the source IR: the stable integer id of an
indexed variable kind, `none` for constants, built-ins and matrices. -/
def Variable.index (v : Variable) : Option Nat :=
  match v.kind with
  | .globalInputArray id => some id
  | .globalScalar id => some id
  | .localVar id _ => some id
  | .versioned id _ _ => some id
  | .localBinding id => some id
  | .slice id _ => some id
  | .globalOutputArray id => some id
  | .constantScalar _ => none
  | .sharedMemory id _ => some id
  | .constantArray id _ => some id
  | .localArray id _ _ => some id
  | .builtin _ => none
  | .matrix => none

/-- The IR variable a `u32` metadata offset is converted into
(`offset.into()`): a `u32` scalar constant. -/
def u32Var (n : Nat) : Variable :=
  ⟨.constantScalar (.uint n), ⟨.uint .u32, none⟩⟩

/-! ## Target dialect: elements, items, variables (`wgsl` module) -/

inductive WElem where
  | f32 | i32 | u32 | bool | atomicI32 | atomicU32
deriving DecidableEq, Repr

inductive WItem where
  | scalar (e : WElem)
  | vec2 (e : WElem)
  | vec3 (e : WElem)
  | vec4 (e : WElem)
deriving DecidableEq, Repr

/-- Modelled from the spec: `wgsl::Item::vectorization_factor` (the
`wgsl/shader.rs` module is not part of the provided sources); a scalar item
has factor 1, a `k`-lane vector has factor `k`. -/
def WItem.vectorizationFactor : WItem → Nat
  | .scalar _ => 1
  | .vec2 _ => 2
  | .vec3 _ => 3
  | .vec4 _ => 4

inductive WVar where
  | globalInputArray (id : Nat) (item : WItem)
  | globalScalar (id : Nat) (elem : WElem) (celem : Elem)
  | localVar (id : Nat) (item : WItem) (depth : Nat)
  | localBinding (id : Nat) (item : WItem)
  | slice (id : Nat) (item : WItem) (depth : Nat)
  | globalOutputArray (id : Nat) (item : WItem)
  | constantScalar (v : ConstVal) (elem : WElem)
  | sharedMemory (id : Nat) (item : WItem) (length : Nat)
  | constantArray (id : Nat) (item : WItem) (length : Nat)
  | localArray (id : Nat) (item : WItem) (depth : Nat) (length : Nat)
  | id
  | localInvocationIndex
  | localInvocationIdX | localInvocationIdY | localInvocationIdZ
  | workgroupIdX | workgroupIdY | workgroupIdZ
  | globalInvocationIdX | globalInvocationIdY | globalInvocationIdZ
  | workgroupSizeX | workgroupSizeY | workgroupSizeZ
  | numWorkgroupsX | numWorkgroupsY | numWorkgroupsZ
  | workgroupId
  | workgroupSize
  | numWorkgroups
  | subgroupSize
deriving DecidableEq, Repr

/-- Modelled from the spec: `wgsl::Variable::item` (the `wgsl/shader.rs`
module is not part of the provided sources).  Array-like and local variables
carry their item; scalars are scalar items of their element; the GPU
built-ins are scalar `u32` values. -/
def WVar.item : WVar → WItem
  | .globalInputArray _ it => it
  | .globalScalar _ e _ => .scalar e
  | .localVar _ it _ => it
  | .localBinding _ it => it
  | .slice _ it _ => it
  | .globalOutputArray _ it => it
  | .constantScalar _ e => .scalar e
  | .sharedMemory _ it _ => it
  | .constantArray _ it _ => it
  | .localArray _ it _ _ => it
  | _ => .scalar .u32

/-- Modelled from the spec: `wgsl::Variable::is_always_scalar` (the
`wgsl/shader.rs` module is not part of the provided sources).  A variable is
always scalar when it denotes a single scalar value regardless of its item:
global scalars, scalar constants and the scalar GPU built-ins. -/
def WVar.isAlwaysScalar : WVar → Bool
  | .globalScalar _ _ _ => true
  | .constantScalar _ _ => true
  | .globalInputArray _ _ => false
  | .localVar _ _ _ => false
  | .localBinding _ _ => false
  | .slice _ _ _ => false
  | .globalOutputArray _ _ => false
  | .sharedMemory _ _ _ => false
  | .constantArray _ _ _ => false
  | .localArray _ _ _ _ => false
  | _ => true

/-! ## Compile errors

The source compiler fails with `panic!` / `.unwrap()`; each distinct panic
site family is modelled as a distinct error value so that claims about which
failure fired stay expressible. -/

inductive CErr where
  /-- An operation that names an `out` variable received `out = None`. -/
  | missingOut
  /-- `ext_meta_pos` was requested for a non-global variable. -/
  | nonGlobalMeta
  /-- `compile_elem` on an unsupported element kind. -/
  | unsupportedType
  /-- `compile_item` on an unsupported vectorization factor. -/
  | unsupportedVectorization
  /-- Cooperative-matrix variables / operations. -/
  | unsupportedFeature
  /-- A slice index (`self.ext_meta_pos[pos]`) out of bounds. -/
  | outOfBounds
  /-- `var.index().unwrap()` on an un-indexed variable. -/
  | missingIndex
deriving DecidableEq, Repr

/-! ## The type mapper: `compile_elem` and `compile_item` -/

def compileElem : Elem → Except CErr WElem
  | .float f =>
    match f with
    | .f16 => .error .unsupportedType
    | .bf16 => .error .unsupportedType
    | .tf32 => .error .unsupportedType
    | .flex32 => .ok .f32
    | .f32 => .ok .f32
    | .f64 => .error .unsupportedType
  | .int i =>
    match i with
    | .i32 => .ok .i32
    | _ => .error .unsupportedType
  | .uint k =>
    match k with
    | .u32 => .ok .u32
    | _ => .error .unsupportedType
  | .bool => .ok .bool
  | .atomicInt i =>
    match i with
    | .i32 => .ok .atomicI32
    | _ => .error .unsupportedType
  | .atomicUInt k =>
    match k with
    | .u32 => .ok .atomicU32
    | _ => .error .unsupportedType

def compileItem (item : Item) : Except CErr WItem :=
  match compileElem item.elem with
  | .error e => .error e
  | .ok elem =>
    match item.vectorization.getD 1 with
    | 1 => .ok (.scalar elem)
    | 2 => .ok (.vec2 elem)
    | 3 => .ok (.vec3 elem)
    | 4 => .ok (.vec4 elem)
    | _ => .error .unsupportedVectorization

/-! ## Source IR: operations -/

structure BinOp where
  lhs : Variable
  rhs : Variable
deriving DecidableEq, Repr

structure UnOp where
  input : Variable
deriving DecidableEq, Repr

structure FmaOp where
  a : Variable
  b : Variable
  c : Variable
deriving DecidableEq, Repr

structure ClampOp where
  input : Variable
  min_value : Variable
  max_value : Variable
deriving DecidableEq, Repr

structure SliceOp where
  input : Variable
  start : Variable
  stop : Variable
deriving DecidableEq, Repr

structure InitOp where
  inputs : List Variable
deriving DecidableEq, Repr

structure CopyMemOp where
  input : Variable
  in_index : Variable
  out_index : Variable
deriving DecidableEq, Repr

structure CopyMemBulkOp where
  input : Variable
  in_index : Variable
  out_index : Variable
  len : Nat
deriving DecidableEq, Repr

structure SelectOp where
  cond : Variable
  then_ : Variable
  or_else : Variable
deriving DecidableEq, Repr

structure CasOp where
  input : Variable
  cmp : Variable
  val : Variable
deriving DecidableEq, Repr

inductive Operator where
  | max (op : BinOp) | min (op : BinOp) | add (op : BinOp) | fma (op : FmaOp)
  | index (op : BinOp) | uncheckedIndex (op : BinOp)
  | modulo (op : BinOp) | sub (op : BinOp) | mul (op : BinOp) | div (op : BinOp)
  | abs (op : UnOp) | exp (op : UnOp) | log (op : UnOp) | log1p (op : UnOp)
  | cos (op : UnOp) | sin (op : UnOp) | tanh (op : UnOp)
  | powf (op : BinOp) | sqrt (op : UnOp) | round (op : UnOp)
  | floor (op : UnOp) | ceil (op : UnOp) | erf (op : UnOp) | recip (op : UnOp)
  | equal (op : BinOp) | lower (op : BinOp) | clamp (op : ClampOp)
  | greater (op : BinOp) | lowerEqual (op : BinOp) | greaterEqual (op : BinOp)
  | notEqual (op : BinOp) | cast (op : UnOp)
  | indexAssign (op : BinOp) | uncheckedIndexAssign (op : BinOp)
  | and (op : BinOp) | or (op : BinOp) | not (op : UnOp)
  | bitwiseOr (op : BinOp) | bitwiseAnd (op : BinOp) | bitwiseXor (op : BinOp)
  | shiftLeft (op : BinOp) | shiftRight (op : BinOp) | remainder (op : BinOp)
  | sliceOp (op : SliceOp) | bitcast (op : UnOp) | neg (op : UnOp)
  | magnitude (op : UnOp) | normalize (op : UnOp) | dot (op : BinOp)
  | initLine (op : InitOp) | copyMemory (op : CopyMemOp)
  | copyMemoryBulk (op : CopyMemBulkOp) | select (op : SelectOp)
deriving Repr

inductive AtomicOp where
  | add (op : BinOp) | sub (op : BinOp) | max (op : BinOp) | min (op : BinOp)
  | and (op : BinOp) | or (op : BinOp) | xor (op : BinOp)
  | load (op : UnOp) | store (op : UnOp) | swap (op : BinOp)
  | compareAndSwap (op : CasOp)
deriving DecidableEq, Repr

inductive MetaOp where
  | rank (var : Variable)
  | stride (dim : Variable) (var : Variable)
  | shape (dim : Variable) (var : Variable)
  | length (var : Variable)
  | bufferLength (var : Variable)
deriving DecidableEq, Repr

inductive Subcube where
  | elect
  | all (op : UnOp) | any (op : UnOp)
  | broadcast (op : BinOp)
  | sum (op : UnOp) | prod (op : UnOp) | min (op : UnOp) | max (op : UnOp)
deriving DecidableEq, Repr

inductive Synchronization where
  | syncUnits
  | syncStorage
deriving DecidableEq, Repr

/-- A constant-array declaration drained from a scope:
`(variable, literal values)`. -/
structure ConstArrDecl where
  var : Variable
  values : List Variable
deriving DecidableEq, Repr

mutual

/-- A scope after its pre-processing pass: the drained constant arrays, the
variables discovered for declaration, and the operations (each carrying its
optional `out`).  Modelled from the spec for the `Scope::process` part (the
`cubecl-core` scope processing is not part of the provided sources): the
processing yields the scope's declared variables and its operations in
source order. -/
inductive Scope where
  | mk (constArrays : List ConstArrDecl) (vars : List Variable)
      (ops : List (Operation × Option Variable))

inductive Operation where
  | copy (v : Variable)
  | operator (o : Operator)
  | atomic (o : AtomicOp)
  | metadataOp (m : MetaOp)
  | branch (b : Branch)
  | synchronization (s : Synchronization)
  | subcube (s : Subcube)
  | coopMma

inductive Branch where
  | ifCond (cond : Variable) (scope : Scope)
  | ifElse (cond : Variable) (scopeIf : Scope) (scopeElse : Scope)
  | switch (value : Variable) (scopeDefault : Scope)
      (cases : List (Variable × Scope))
  | ret
  | brk
  | rangeLoop (i : Variable) (start : Variable) (stop : Variable)
      (step : Option Variable) (inclusive : Bool) (scope : Scope)
  | loop (scope : Scope)

end

/-! ## Target dialect: instructions, extensions, declarations -/

structure SharedMemoryDecl where
  index : Nat
  item : WItem
  length : Nat
deriving DecidableEq, Repr

structure LocalArrayDecl where
  index : Nat
  item : WItem
  depth : Nat
  length : Nat
deriving DecidableEq, Repr

structure ConstantArrayDecl where
  index : Nat
  item : WItem
  size : Nat
  values : List WVar
deriving DecidableEq, Repr

inductive Subgroup where
  | elect (out : WVar)
  | all (input : WVar) (out : WVar)
  | any (input : WVar) (out : WVar)
  | broadcast (lhs : WVar) (rhs : WVar) (out : WVar)
  | sum (input : WVar) (out : WVar)
  | prod (input : WVar) (out : WVar)
  | min (input : WVar) (out : WVar)
  | max (input : WVar) (out : WVar)
deriving DecidableEq, Repr

inductive Instr where
  | declareVariable (var : WVar)
  | assign (input : WVar) (out : WVar)
  | max (lhs : WVar) (rhs : WVar) (out : WVar)
  | min (lhs : WVar) (rhs : WVar) (out : WVar)
  | add (lhs : WVar) (rhs : WVar) (out : WVar)
  | fma (a : WVar) (b : WVar) (c : WVar) (out : WVar)
  | index (lhs : WVar) (rhs : WVar) (out : WVar)
  | modulo (lhs : WVar) (rhs : WVar) (out : WVar)
  | sub (lhs : WVar) (rhs : WVar) (out : WVar)
  | mul (lhs : WVar) (rhs : WVar) (out : WVar)
  | div (lhs : WVar) (rhs : WVar) (out : WVar)
  | abs (input : WVar) (out : WVar)
  | exp (input : WVar) (out : WVar)
  | log (input : WVar) (out : WVar)
  | log1p (input : WVar) (out : WVar)
  | cos (input : WVar) (out : WVar)
  | sin (input : WVar) (out : WVar)
  | tanh (input : WVar) (out : WVar)
  | powf (lhs : WVar) (rhs : WVar) (out : WVar)
  | sqrt (input : WVar) (out : WVar)
  | round (input : WVar) (out : WVar)
  | floor (input : WVar) (out : WVar)
  | ceil (input : WVar) (out : WVar)
  | erf (input : WVar) (out : WVar)
  | recip (input : WVar) (out : WVar)
  | equal (lhs : WVar) (rhs : WVar) (out : WVar)
  | lower (lhs : WVar) (rhs : WVar) (out : WVar)
  | clamp (input : WVar) (min_value : WVar) (max_value : WVar) (out : WVar)
  | greater (lhs : WVar) (rhs : WVar) (out : WVar)
  | lowerEqual (lhs : WVar) (rhs : WVar) (out : WVar)
  | greaterEqual (lhs : WVar) (rhs : WVar) (out : WVar)
  | notEqual (lhs : WVar) (rhs : WVar) (out : WVar)
  | indexAssign (lhs : WVar) (rhs : WVar) (out : WVar)
  | and (lhs : WVar) (rhs : WVar) (out : WVar)
  | or (lhs : WVar) (rhs : WVar) (out : WVar)
  | not (input : WVar) (out : WVar)
  | bitwiseOr (lhs : WVar) (rhs : WVar) (out : WVar)
  | bitwiseAnd (lhs : WVar) (rhs : WVar) (out : WVar)
  | bitwiseXor (lhs : WVar) (rhs : WVar) (out : WVar)
  | shiftLeft (lhs : WVar) (rhs : WVar) (out : WVar)
  | shiftRight (lhs : WVar) (rhs : WVar) (out : WVar)
  | remainder (lhs : WVar) (rhs : WVar) (out : WVar)
  | sliceInstr (input : WVar) (start : WVar) (stop : WVar) (out : WVar)
  | bitcast (input : WVar) (out : WVar)
  | negate (input : WVar) (out : WVar)
  | magnitude (input : WVar) (out : WVar)
  | normalize (input : WVar) (out : WVar)
  | dot (lhs : WVar) (rhs : WVar) (out : WVar)
  | vecInit (inputs : List WVar) (out : WVar)
  | copy (input : WVar) (in_index : WVar) (out : WVar) (out_index : WVar)
  | copyBulk (input : WVar) (in_index : WVar) (out : WVar) (out_index : WVar)
      (len : Nat)
  | select (cond : WVar) (then_ : WVar) (or_else : WVar) (out : WVar)
  | atomicAdd (lhs : WVar) (rhs : WVar) (out : WVar)
  | atomicSub (lhs : WVar) (rhs : WVar) (out : WVar)
  | atomicMax (lhs : WVar) (rhs : WVar) (out : WVar)
  | atomicMin (lhs : WVar) (rhs : WVar) (out : WVar)
  | atomicAnd (lhs : WVar) (rhs : WVar) (out : WVar)
  | atomicOr (lhs : WVar) (rhs : WVar) (out : WVar)
  | atomicXor (lhs : WVar) (rhs : WVar) (out : WVar)
  | atomicLoad (input : WVar) (out : WVar)
  | atomicStore (input : WVar) (out : WVar)
  | atomicSwap (lhs : WVar) (rhs : WVar) (out : WVar)
  | atomicCompareExchangeWeak (lhs : WVar) (cmp : WVar) (value : WVar)
      (out : WVar)
  | metadataLoad (out : WVar) (info_offset : WVar)
  | extendedMeta (info_offset : WVar) (dim : WVar) (out : WVar)
  | lengthOf (var : WVar) (out : WVar)
  | subgroupInstr (op : Subgroup)
  | ifCond (cond : WVar) (instructions : List Instr)
  | ifElse (cond : WVar) (instructionsIf : List Instr)
      (instructionsElse : List Instr)
  | switch (value : WVar) (instructionsDefault : List Instr)
      (cases : List (WVar × List Instr))
  | ret
  | brk
  | rangeLoop (i : WVar) (start : WVar) (stop : WVar) (step : Option WVar)
      (inclusive : Bool) (instructions : List Instr)
  | loop (instructions : List Instr)
  | workgroupBarrier
  | storageBarrier

inductive Extension where
  | powfPrimitive (item : WItem)
  | powfScalar (item : WItem)
  | powf (item : WItem)
  | erf (item : WItem)
  | safeTanh (item : WItem)
deriving DecidableEq, Repr

/-! ## Bindings and the compiled shader record -/

inductive Location where
  | storage
  | cube
deriving DecidableEq, Repr

inductive Visibility where
  | read
  | readWrite
deriving DecidableEq, Repr

structure Binding where
  location : Location
  visibility : Visibility
  item : Item
  size : Option Nat
  has_extended_meta : Bool
deriving DecidableEq, Repr

inductive WLocation where
  | storage
  | workgroup
deriving DecidableEq, Repr

inductive WVisibility where
  | read
  | readWrite
deriving DecidableEq, Repr

structure WBinding where
  visibility : WVisibility
  location : WLocation
  item : WItem
  size : Option Nat
deriving DecidableEq, Repr

structure CubeDim where
  x : Nat
  y : Nat
  z : Nat
deriving DecidableEq, Repr

structure KernelDefinition where
  inputs : List Binding
  outputs : List Binding
  named : List (String × Binding)
  cube_dim : CubeDim
  body : Scope

structure WBody where
  instructions : List Instr
  id : Bool

structure ComputeShader where
  inputs : List WBinding
  outputs : List WBinding
  named : List (String × WBinding)
  shared_memories : List SharedMemoryDecl
  constant_arrays : List ConstantArrayDecl
  local_arrays : List LocalArrayDecl
  workgroup_size : CubeDim
  global_invocation_id : Bool
  local_invocation_index : Bool
  local_invocation_id : Bool
  num_workgroups : Bool
  workgroup_id : Bool
  subgroup_size : Bool
  body : WBody
  extensions : List Extension
  num_workgroups_no_axis : Bool
  workgroup_id_no_axis : Bool
  workgroup_size_no_axis : Bool

/-! ## The metadata side-table resolver

Modelled from the spec: the `Metadata` index resolver of `cubecl-core` is
not part of the provided sources.  Per the spec's layout, for `N = num_meta`
bindings and `E = num_ext` extended bindings the flat table holds the
per-binding lengths (`N` words), the per-binding buffer lengths (`N` words),
then per-extended-binding rank, shape offset and stride offset (`E` words
each) in a fixed-size prefix. -/
structure MetaR where
  num_meta : Nat
  num_ext : Nat
deriving DecidableEq, Repr

def MetaR.len_index (_ : MetaR) (i : Nat) : Nat := i

def MetaR.buffer_len_index (m : MetaR) (i : Nat) : Nat := m.num_meta + i

def MetaR.rank_index (m : MetaR) (e : Nat) : Nat := 2 * m.num_meta + e

def MetaR.shape_offset_index (m : MetaR) (e : Nat) : Nat :=
  2 * m.num_meta + m.num_ext + e

def MetaR.stride_offset_index (m : MetaR) (e : Nat) : Nat :=
  2 * m.num_meta + 2 * m.num_ext + e

/-! ## The compiler state (`WgslCompiler`) -/

structure CState where
  num_inputs : Nat
  num_outputs : Nat
  metadata : MetaR
  ext_meta_pos : List Nat
  local_invocation_index : Bool
  local_invocation_id : Bool
  global_invocation_id : Bool
  workgroup_id : Bool
  subgroup_size : Bool
  id : Bool
  num_workgroups : Bool
  workgroup_id_no_axis : Bool
  workgroup_size_no_axis : Bool
  num_workgroup_no_axis : Bool
  shared_memories : List SharedMemoryDecl
  const_arrays : List ConstantArrayDecl
  local_arrays : List LocalArrayDecl
deriving DecidableEq, Repr

/-- `WgslCompiler::default()`. -/
def defaultCState : CState :=
  { num_inputs := 0
    num_outputs := 0
    metadata := ⟨0, 0⟩
    ext_meta_pos := []
    local_invocation_index := false
    local_invocation_id := false
    global_invocation_id := false
    workgroup_id := false
    subgroup_size := false
    id := false
    num_workgroups := false
    workgroup_id_no_axis := false
    workgroup_size_no_axis := false
    num_workgroup_no_axis := false
    shared_memories := []
    const_arrays := []
    local_arrays := [] }

/-! ## `ext_meta_pos` lookup and `compile_variable` -/

/-- `WgslCompiler::ext_meta_pos`: the extended-metadata position of a global
array variable; panics (modelled as an error) for any other kind. -/
def extMetaPos (st : CState) (v : Variable) : Except CErr Nat :=
  match v.kind with
  | .globalInputArray id =>
    match st.ext_meta_pos.get? id with
    | some p => .ok p
    | none => .error .outOfBounds
  | .globalOutputArray id =>
    match st.ext_meta_pos.get? (st.num_inputs + id) with
    | some p => .ok p
    | none => .error .outOfBounds
  | _ => .error .nonGlobalMeta

/-- `WgslCompiler::compile_variable`. -/
def compileVariable (st : CState) (v : Variable) : Except CErr (CState × WVar) :=
  match v.kind with
  | .globalInputArray id =>
    match compileItem v.item with
    | .error e => .error e
    | .ok it => .ok (st, .globalInputArray id it)
  | .globalScalar id =>
    match compileElem v.item.elem with
    | .error e => .error e
    | .ok e => .ok (st, .globalScalar id e v.item.elem)
  | .localVar id depth =>
    match compileItem v.item with
    | .error e => .error e
    | .ok it => .ok (st, .localVar id it depth)
  | .versioned id depth _ =>
    match compileItem v.item with
    | .error e => .error e
    | .ok it => .ok (st, .localVar id it depth)
  | .localBinding id =>
    match compileItem v.item with
    | .error e => .error e
    | .ok it => .ok (st, .localBinding id it)
  | .slice id depth =>
    match compileItem v.item with
    | .error e => .error e
    | .ok it => .ok (st, .slice id it depth)
  | .globalOutputArray id =>
    match compileItem v.item with
    | .error e => .error e
    | .ok it => .ok (st, .globalOutputArray id it)
  | .constantScalar value =>
    match compileElem value.elem with
    | .error e => .error e
    | .ok e => .ok (st, .constantScalar value e)
  | .sharedMemory id length =>
    match compileItem v.item with
    | .error e => .error e
    | .ok it =>
      if st.shared_memories.any (·.index = id) then
        .ok (st, .sharedMemory id it length)
      else
        .ok ({ st with
                shared_memories := st.shared_memories ++ [⟨id, it, length⟩] },
             .sharedMemory id it length)
  | .constantArray id length =>
    match compileItem v.item with
    | .error e => .error e
    | .ok it => .ok (st, .constantArray id it length)
  | .localArray id depth length =>
    match compileItem v.item with
    | .error e => .error e
    | .ok it =>
      if st.local_arrays.any (·.index = id) then
        .ok (st, .localArray id it depth length)
      else
        .ok ({ st with
                local_arrays := st.local_arrays ++ [⟨id, it, depth, length⟩] },
             .localArray id it depth length)
  | .builtin b =>
    match b with
    | .absolutePos => .ok ({ st with id := true }, .id)
    | .unitPos =>
      .ok ({ st with local_invocation_index := true }, .localInvocationIndex)
    | .unitPosX =>
      .ok ({ st with local_invocation_id := true }, .localInvocationIdX)
    | .unitPosY =>
      .ok ({ st with local_invocation_id := true }, .localInvocationIdY)
    | .unitPosZ =>
      .ok ({ st with local_invocation_id := true }, .localInvocationIdZ)
    | .cubePosX => .ok ({ st with workgroup_id := true }, .workgroupIdX)
    | .cubePosY => .ok ({ st with workgroup_id := true }, .workgroupIdY)
    | .cubePosZ => .ok ({ st with workgroup_id := true }, .workgroupIdZ)
    | .absolutePosX =>
      .ok ({ st with global_invocation_id := true }, .globalInvocationIdX)
    | .absolutePosY =>
      .ok ({ st with global_invocation_id := true }, .globalInvocationIdY)
    | .absolutePosZ =>
      .ok ({ st with global_invocation_id := true }, .globalInvocationIdZ)
    | .cubeDimX => .ok (st, .workgroupSizeX)
    | .cubeDimY => .ok (st, .workgroupSizeY)
    | .cubeDimZ => .ok (st, .workgroupSizeZ)
    | .cubeCountX => .ok ({ st with num_workgroups := true }, .numWorkgroupsX)
    | .cubeCountY => .ok ({ st with num_workgroups := true }, .numWorkgroupsY)
    | .cubeCountZ => .ok ({ st with num_workgroups := true }, .numWorkgroupsZ)
    | .cubePos => .ok ({ st with workgroup_id_no_axis := true }, .workgroupId)
    | .cubeDim =>
      .ok ({ st with workgroup_size_no_axis := true }, .workgroupSize)
    | .cubeCount =>
      .ok ({ st with num_workgroup_no_axis := true }, .numWorkgroups)
    | .subcubeDim => .ok ({ st with subgroup_size := true }, .subgroupSize)
  | .matrix => .error .unsupportedFeature

/-! ## Sequencing combinators

Each arm of the source's operation lowering compiles a fixed sequence of
operand variables in written order and builds one target instruction from
the results; these combinators capture exactly that shape. -/

def cv1 (st : CState) (a : Variable) (k : WVar → Instr) :
    Except CErr (CState × Instr) :=
  match compileVariable st a with
  | .error e => .error e
  | .ok (st, wa) => .ok (st, k wa)

def cv2 (st : CState) (a b : Variable) (k : WVar → WVar → Instr) :
    Except CErr (CState × Instr) :=
  match compileVariable st a with
  | .error e => .error e
  | .ok (st, wa) => cv1 st b (k wa)

def cv3 (st : CState) (a b c : Variable) (k : WVar → WVar → WVar → Instr) :
    Except CErr (CState × Instr) :=
  match compileVariable st a with
  | .error e => .error e
  | .ok (st, wa) => cv2 st b c (k wa)

def cv4 (st : CState) (a b c d : Variable)
    (k : WVar → WVar → WVar → WVar → Instr) :
    Except CErr (CState × Instr) :=
  match compileVariable st a with
  | .error e => .error e
  | .ok (st, wa) => cv3 st b c d (k wa)

def cvList (st : CState) : List Variable → Except CErr (CState × List WVar)
  | [] => .ok (st, [])
  | v :: rest =>
    match compileVariable st v with
    | .error e => .error e
    | .ok (st1, w) =>
      match cvList st1 rest with
      | .error e => .error e
      | .ok (st2, ws) => .ok (st2, w :: ws)

/-! ## Operation lowering -/

/-- `WgslCompiler::compile_instruction` (the operator family). -/
def compileInstr (st : CState) (value : Operator) (out : Option Variable) :
    Except CErr (CState × Instr) :=
  match out with
  | none => .error .missingOut
  | some out =>
    match value with
    | .max op => cv3 st op.lhs op.rhs out .max
    | .min op => cv3 st op.lhs op.rhs out .min
    | .add op => cv3 st op.lhs op.rhs out .add
    | .fma op => cv4 st op.a op.b op.c out .fma
    | .index op => cv3 st op.lhs op.rhs out .index
    | .uncheckedIndex op => cv3 st op.lhs op.rhs out .index
    | .modulo op => cv3 st op.lhs op.rhs out .modulo
    | .sub op => cv3 st op.lhs op.rhs out .sub
    | .mul op => cv3 st op.lhs op.rhs out .mul
    | .div op => cv3 st op.lhs op.rhs out .div
    | .abs op => cv2 st op.input out .abs
    | .exp op => cv2 st op.input out .exp
    | .log op => cv2 st op.input out .log
    | .log1p op => cv2 st op.input out .log1p
    | .cos op => cv2 st op.input out .cos
    | .sin op => cv2 st op.input out .sin
    | .tanh op => cv2 st op.input out .tanh
    | .powf op => cv3 st op.lhs op.rhs out .powf
    | .sqrt op => cv2 st op.input out .sqrt
    | .round op => cv2 st op.input out .round
    | .floor op => cv2 st op.input out .floor
    | .ceil op => cv2 st op.input out .ceil
    | .erf op => cv2 st op.input out .erf
    | .recip op => cv2 st op.input out .recip
    | .equal op => cv3 st op.lhs op.rhs out .equal
    | .lower op => cv3 st op.lhs op.rhs out .lower
    | .clamp op => cv4 st op.input op.min_value op.max_value out .clamp
    | .greater op => cv3 st op.lhs op.rhs out .greater
    | .lowerEqual op => cv3 st op.lhs op.rhs out .lowerEqual
    | .greaterEqual op => cv3 st op.lhs op.rhs out .greaterEqual
    | .notEqual op => cv3 st op.lhs op.rhs out .notEqual
    | .cast op => cv2 st op.input out .assign
    | .indexAssign op => cv3 st op.lhs op.rhs out .indexAssign
    | .uncheckedIndexAssign op => cv3 st op.lhs op.rhs out .indexAssign
    | .and op => cv3 st op.lhs op.rhs out .and
    | .or op => cv3 st op.lhs op.rhs out .or
    | .not op => cv2 st op.input out .not
    | .bitwiseOr op => cv3 st op.lhs op.rhs out .bitwiseOr
    | .bitwiseAnd op => cv3 st op.lhs op.rhs out .bitwiseAnd
    | .bitwiseXor op => cv3 st op.lhs op.rhs out .bitwiseXor
    | .shiftLeft op => cv3 st op.lhs op.rhs out .shiftLeft
    | .shiftRight op => cv3 st op.lhs op.rhs out .shiftRight
    | .remainder op => cv3 st op.lhs op.rhs out .remainder
    | .sliceOp op => cv4 st op.input op.start op.stop out .sliceInstr
    | .bitcast op => cv2 st op.input out .bitcast
    | .neg op => cv2 st op.input out .negate
    | .magnitude op => cv2 st op.input out .magnitude
    | .normalize op => cv2 st op.input out .normalize
    | .dot op => cv3 st op.lhs op.rhs out .dot
    | .initLine op =>
      match cvList st op.inputs with
      | .error e => .error e
      | .ok (st, ws) => cv1 st out (.vecInit ws)
    | .copyMemory op =>
      cv4 st op.input op.in_index out op.out_index
        (fun i ii o oi => .copy i ii o oi)
    | .copyMemoryBulk op =>
      cv4 st op.input op.in_index out op.out_index
        (fun i ii o oi => .copyBulk i ii o oi op.len)
    | .select op => cv4 st op.cond op.then_ op.or_else out .select

/-- `WgslCompiler::compile_atomic`. -/
def compileAtomic (st : CState) (atomic : AtomicOp) (out : Option Variable) :
    Except CErr (CState × Instr) :=
  match out with
  | none => .error .missingOut
  | some out =>
    match atomic with
    | .add op => cv3 st op.lhs op.rhs out .atomicAdd
    | .sub op => cv3 st op.lhs op.rhs out .atomicSub
    | .max op => cv3 st op.lhs op.rhs out .atomicMax
    | .min op => cv3 st op.lhs op.rhs out .atomicMin
    | .and op => cv3 st op.lhs op.rhs out .atomicAnd
    | .or op => cv3 st op.lhs op.rhs out .atomicOr
    | .xor op => cv3 st op.lhs op.rhs out .atomicXor
    | .load op => cv2 st op.input out .atomicLoad
    | .store op => cv2 st op.input out .atomicStore
    | .swap op => cv3 st op.lhs op.rhs out .atomicSwap
    | .compareAndSwap op =>
      cv4 st op.input op.cmp op.val out .atomicCompareExchangeWeak

/-- `WgslCompiler::compile_subgroup`. -/
def compileSubgroup (st : CState) (subgroup : Subcube)
    (out : Option Variable) : Except CErr (CState × Instr) :=
  match out with
  | none => .error .missingOut
  | some out =>
    match subgroup with
    | .elect => cv1 st out (fun o => .subgroupInstr (.elect o))
    | .all op => cv2 st op.input out (fun i o => .subgroupInstr (.all i o))
    | .any op => cv2 st op.input out (fun i o => .subgroupInstr (.any i o))
    | .broadcast op =>
      cv3 st op.lhs op.rhs out (fun l r o => .subgroupInstr (.broadcast l r o))
    | .sum op => cv2 st op.input out (fun i o => .subgroupInstr (.sum i o))
    | .prod op => cv2 st op.input out (fun i o => .subgroupInstr (.prod i o))
    | .min op => cv2 st op.input out (fun i o => .subgroupInstr (.min i o))
    | .max op => cv2 st op.input out (fun i o => .subgroupInstr (.max i o))

/-- `WgslCompiler::compile_metadata`. -/
def compileMetadata (st : CState) (metadata : MetaOp)
    (out : Option Variable) : Except CErr (CState × Instr) :=
  match out with
  | none => .error .missingOut
  | some out =>
    match metadata with
    | .rank var =>
      match extMetaPos st var with
      | .error e => .error e
      | .ok position =>
        cv2 st out (u32Var (st.metadata.rank_index position))
          (fun o io => .metadataLoad o io)
    | .stride dim var =>
      match extMetaPos st var with
      | .error e => .error e
      | .ok position =>
        cv3 st (u32Var (st.metadata.stride_offset_index position)) dim out
          .extendedMeta
    | .shape dim var =>
      match extMetaPos st var with
      | .error e => .error e
      | .ok position =>
        cv3 st (u32Var (st.metadata.shape_offset_index position)) dim out
          .extendedMeta
    | .length var =>
      match var.kind with
      | .globalInputArray id =>
        cv2 st out (u32Var (st.metadata.len_index id))
          (fun o io => .metadataLoad o io)
      | .globalOutputArray id =>
        cv2 st out (u32Var (st.metadata.len_index (st.num_inputs + id)))
          (fun o io => .metadataLoad o io)
      | _ => cv2 st var out .lengthOf
    | .bufferLength var =>
      match var.kind with
      | .globalInputArray id =>
        cv2 st out (u32Var (st.metadata.buffer_len_index id))
          (fun o io => .metadataLoad o io)
      | .globalOutputArray id =>
        cv2 st out (u32Var (st.metadata.buffer_len_index (st.num_inputs + id)))
          (fun o io => .metadataLoad o io)
      | _ => cv2 st var out .lengthOf

/-! ## Scope lowering -/

/-- The constant-array part of `compile_scope`: drain the scope's constant
arrays into `ConstantArray` declarations, compiling each literal value. -/
def compileConstArrs (st : CState) :
    List ConstArrDecl → Except CErr (CState × List ConstantArrayDecl)
  | [] => .ok (st, [])
  | d :: rest =>
    match d.var.index with
    | none => .error .missingIndex
    | some idx =>
      match compileItem d.var.item with
      | .error e => .error e
      | .ok it =>
        match cvList st d.values with
        | .error e => .error e
        | .ok (st1, ws) =>
          match compileConstArrs st1 rest with
          | .error e => .error e
          | .ok (st2, ds) =>
            .ok (st2, ⟨idx, it, d.values.length, ws⟩ :: ds)

/-- Whether a variable is a `Slice` (never declared by `compile_scope`). -/
def Variable.isSliceKind (v : Variable) : Bool :=
  match v.kind with
  | .slice _ _ => true
  | _ => false

/-- The declaration part of `compile_scope`: declare every processed
variable, skipping `Slice` kinds. -/
def compileDecls (st : CState) :
    List Variable → Except CErr (CState × List Instr)
  | [] => .ok (st, [])
  | v :: rest =>
    if v.isSliceKind then compileDecls st rest
    else
      match compileVariable st v with
      | .error e => .error e
      | .ok (st1, w) =>
        match compileDecls st1 rest with
        | .error e => .error e
        | .ok (st2, is) => .ok (st2, .declareVariable w :: is)

mutual

/-- `WgslCompiler::compile_scope`. -/
def compileScope (st : CState) (s : Scope) :
    Except CErr (CState × List Instr) :=
  match s with
  | .mk constArrays vars ops =>
    match compileConstArrs st constArrays with
    | .error e => .error e
    | .ok (st1, arrs) =>
      let st2 := { st1 with const_arrays := st1.const_arrays ++ arrs }
      match compileDecls st2 vars with
      | .error e => .error e
      | .ok (st3, decls) =>
        match compileOps st3 ops with
        | .error e => .error e
        | .ok (st4, instrs) => .ok (st4, decls ++ instrs)

def compileOps (st : CState) (ops : List (Operation × Option Variable)) :
    Except CErr (CState × List Instr) :=
  match ops with
  | [] => .ok (st, [])
  | (op, out) :: rest =>
    match compileOperation st op out with
    | .error e => .error e
    | .ok (st1, instr) =>
      match compileOps st1 rest with
      | .error e => .error e
      | .ok (st2, instrs) => .ok (st2, instr :: instrs)

/-- `WgslCompiler::compile_operation`. -/
def compileOperation (st : CState) (operation : Operation)
    (out : Option Variable) : Except CErr (CState × Instr) :=
  match operation with
  | .copy vin =>
    match compileVariable st vin with
    | .error e => .error e
    | .ok (st1, input) =>
      match out with
      | none => .error .missingOut
      | some o =>
        match compileVariable st1 o with
        | .error e => .error e
        | .ok (st2, wout) => .ok (st2, .assign input wout)
  | .operator o => compileInstr st o out
  | .atomic o => compileAtomic st o out
  | .metadataOp m => compileMetadata st m out
  | .branch b => compileBranch st b
  | .synchronization s =>
    match s with
    | .syncUnits => .ok (st, .workgroupBarrier)
    | .syncStorage => .ok (st, .storageBarrier)
  | .subcube s => compileSubgroup st s out
  | .coopMma => .error .unsupportedFeature

/-- `WgslCompiler::compile_branch`. -/
def compileBranch (st : CState) (branch : Branch) :
    Except CErr (CState × Instr) :=
  match branch with
  | .ifCond cond scope =>
    match compileVariable st cond with
    | .error e => .error e
    | .ok (st1, wcond) =>
      match compileScope st1 scope with
      | .error e => .error e
      | .ok (st2, instrs) => .ok (st2, .ifCond wcond instrs)
  | .ifElse cond sIf sElse =>
    match compileVariable st cond with
    | .error e => .error e
    | .ok (st1, wcond) =>
      match compileScope st1 sIf with
      | .error e => .error e
      | .ok (st2, iIf) =>
        match compileScope st2 sElse with
        | .error e => .error e
        | .ok (st3, iElse) => .ok (st3, .ifElse wcond iIf iElse)
  | .switch value sDefault cases =>
    match compileVariable st value with
    | .error e => .error e
    | .ok (st1, wvalue) =>
      match compileScope st1 sDefault with
      | .error e => .error e
      | .ok (st2, iDefault) =>
        match compileCases st2 cases with
        | .error e => .error e
        | .ok (st3, wcases) => .ok (st3, .switch wvalue iDefault wcases)
  | .ret => .ok (st, .ret)
  | .brk => .ok (st, .brk)
  | .rangeLoop i start stop step inclusive scope =>
    match compileVariable st i with
    | .error e => .error e
    | .ok (st1, wi) =>
      match compileVariable st1 start with
      | .error e => .error e
      | .ok (st2, wstart) =>
        match compileVariable st2 stop with
        | .error e => .error e
        | .ok (st3, wstop) =>
          match step with
          | none =>
            match compileScope st3 scope with
            | .error e => .error e
            | .ok (st4, instrs) =>
              .ok (st4, .rangeLoop wi wstart wstop none inclusive instrs)
          | some stepVar =>
            match compileVariable st3 stepVar with
            | .error e => .error e
            | .ok (st4, wstep) =>
              match compileScope st4 scope with
              | .error e => .error e
              | .ok (st5, instrs) =>
                .ok (st5,
                  .rangeLoop wi wstart wstop (some wstep) inclusive instrs)
  | .loop scope =>
    match compileScope st scope with
    | .error e => .error e
    | .ok (st1, instrs) => .ok (st1, .loop instrs)

def compileCases (st : CState) (cases : List (Variable × Scope)) :
    Except CErr (CState × List (WVar × List Instr)) :=
  match cases with
  | [] => .ok (st, [])
  | (val, scope) :: rest =>
    match compileVariable st val with
    | .error e => .error e
    | .ok (st1, wval) =>
      match compileScope st1 scope with
      | .error e => .error e
      | .ok (st2, instrs) =>
        match compileCases st2 rest with
        | .error e => .error e
        | .ok (st3, ws) => .ok (st3, (wval, instrs) :: ws)

end

/-! ## Extension collection (`register_extensions`) -/

/-- The dedup-push of the source's `register_extension` closure. -/
def regExtAux (acc : List Extension) (e : Extension) : List Extension :=
  if e ∈ acc then acc else acc ++ [e]

mutual

/-- `register_extensions` over a lowered instruction list.  The
`#[cfg(target_os = "macos")]` arm for `Tanh` is not part of the embedded
(non-macOS) build and contributes nothing here. -/
def registerExtensions (instructions : List Instr) : List Extension :=
  regExtGo [] instructions

def regExtGo (acc : List Extension) : List Instr → List Extension
  | [] => acc
  | instruction :: rest => regExtGo (regExtStep acc instruction) rest

def regExtStep (acc : List Extension) : Instr → List Extension
  | .powf _ rhs out =>
    let acc := regExtAux acc (.powfPrimitive out.item)
    if rhs.isAlwaysScalar || rhs.item.vectorizationFactor == 1 then
      regExtAux acc (.powfScalar out.item)
    else
      regExtAux acc (.powf out.item)
  | .erf input _ => regExtAux acc (.erf input.item)
  | .ifCond _ instructions => (registerExtensions instructions).foldl regExtAux acc
  | .ifElse _ instructionsIf instructionsElse =>
    let acc := (registerExtensions instructionsIf).foldl regExtAux acc
    (registerExtensions instructionsElse).foldl regExtAux acc
  | .loop instructions => (registerExtensions instructions).foldl regExtAux acc
  | .rangeLoop _ _ _ _ _ instructions =>
    (registerExtensions instructions).foldl regExtAux acc
  | _ => acc

end

/-! ## Shader assembly (`compile_shader`) and the compile entry point -/

/-- `WgslCompiler::compile_location`. -/
def compileLocation : Location → WLocation
  | .storage => .storage
  | .cube => .workgroup

/-- `WgslCompiler::compile_visibility`. -/
def compileVisibility : Visibility → WVisibility
  | .read => .read
  | .readWrite => .readWrite

/-- `WgslCompiler::compile_binding`. -/
def compileBinding (value : Binding) : Except CErr WBinding :=
  match compileItem value.item with
  | .error e => .error e
  | .ok it =>
    .ok { visibility := compileVisibility value.visibility
          location := compileLocation value.location
          item := it
          size := value.size }

def compileBindings : List Binding → Except CErr (List WBinding)
  | [] => .ok []
  | b :: rest =>
    match compileBinding b with
    | .error e => .error e
    | .ok w =>
      match compileBindings rest with
      | .error e => .error e
      | .ok ws => .ok (w :: ws)

def compileNamed :
    List (String × Binding) → Except CErr (List (String × WBinding))
  | [] => .ok []
  | (name, b) :: rest =>
    match compileBinding b with
    | .error e => .error e
    | .ok w =>
      match compileNamed rest with
      | .error e => .error e
      | .ok ws => .ok ((name, w) :: ws)

/-- The metadata-table initialization loop of `compile_shader`: walking the
chained input and output bindings with a running counter `num_ext`, it
records the counter per binding and bumps it at each extended-meta binding.
Returns the `ext_meta_pos` table and the final `num_ext`. -/
def extMetaScan : List Binding → Nat → List Nat × Nat
  | [], num_ext => ([], num_ext)
  | b :: rest, num_ext =>
    let tail :=
      extMetaScan rest (if b.has_extended_meta then num_ext + 1 else num_ext)
    (num_ext :: tail.1, tail.2)

/-- The state fields `compile_shader` initializes before lowering the body. -/
def initCompile (st : CState) (k : KernelDefinition) : CState :=
  let scan := extMetaScan (k.inputs ++ k.outputs) 0
  { st with
    num_inputs := k.inputs.length
    num_outputs := k.outputs.length
    ext_meta_pos := scan.1
    metadata := ⟨k.inputs.length + k.outputs.length, scan.2⟩ }

/-- `WgslCompiler::compile_shader`. -/
def compileShader (st0 : CState) (k : KernelDefinition) :
    Except CErr ComputeShader :=
  let st := initCompile st0 k
  match compileScope st k.body with
  | .error e => .error e
  | .ok (st, instructions) =>
    let extensions := registerExtensions instructions
    match compileBindings k.inputs with
    | .error e => .error e
    | .ok inputs =>
      match compileBindings k.outputs with
      | .error e => .error e
      | .ok outputs =>
        match compileNamed k.named with
        | .error e => .error e
        | .ok named =>
          .ok { inputs := inputs
                outputs := outputs
                named := named
                shared_memories := st.shared_memories
                constant_arrays := st.const_arrays
                local_arrays := st.local_arrays
                workgroup_size := k.cube_dim
                global_invocation_id := st.global_invocation_id || st.id
                local_invocation_index := st.local_invocation_index
                local_invocation_id := st.local_invocation_id
                num_workgroups := st.id || st.num_workgroups
                  || st.num_workgroup_no_axis || st.workgroup_id_no_axis
                workgroup_id := st.workgroup_id || st.workgroup_id_no_axis
                subgroup_size := st.subgroup_size
                body := ⟨instructions, st.id⟩
                extensions := extensions
                num_workgroups_no_axis := st.num_workgroup_no_axis
                workgroup_id_no_axis := st.workgroup_id_no_axis
                workgroup_size_no_axis := st.workgroup_size_no_axis }

inductive ExecutionMode where
  | checked
  | unchecked
deriving DecidableEq, Repr

/-- `<WgslCompiler as cubecl_core::Compiler>::compile`: builds a fresh
default compiler instance and runs `compile_shader`; the execution mode is
not consumed. -/
def compileKernel (shader : KernelDefinition) (_mode : ExecutionMode) :
    Except CErr ComputeShader :=
  compileShader defaultCState shader

/-! ## C3: the type mapper -/

/-- C3.  `compile_elem` maps `Flex32` and `F32` to `f32`, `I32` to `i32`,
`U32` to `u32`, `Bool` to `bool`, `AtomicInt(I32)` to `atomic<i32>`,
`AtomicUInt(U32)` to `atomic<u32>`, and fails for every other element kind;
`compile_item` maps vectorization 1, 2, 3, 4 to the scalar and the 2-, 3-,
4-lane vector of the mapped element and fails for any other vectorization
factor (a missing factor defaults to 1); an unsupported element also makes
`compile_item` fail. -/
theorem compileElem_compileItem_characterization :
    (compileElem (.float .flex32) = .ok .f32
      ∧ compileElem (.float .f32) = .ok .f32
      ∧ compileElem (.int .i32) = .ok .i32
      ∧ compileElem (.uint .u32) = .ok .u32
      ∧ compileElem .bool = .ok .bool
      ∧ compileElem (.atomicInt .i32) = .ok .atomicI32
      ∧ compileElem (.atomicUInt .u32) = .ok .atomicU32)
    ∧ (∀ e : Elem,
        e ∉ ([.float .flex32, .float .f32, .int .i32, .uint .u32, .bool,
              .atomicInt .i32, .atomicUInt .u32] : List Elem) →
        compileElem e = .error .unsupportedType)
    ∧ (∀ e w, compileElem e = .ok w →
        compileItem ⟨e, none⟩ = .ok (.scalar w)
        ∧ compileItem ⟨e, some 1⟩ = .ok (.scalar w)
        ∧ compileItem ⟨e, some 2⟩ = .ok (.vec2 w)
        ∧ compileItem ⟨e, some 3⟩ = .ok (.vec3 w)
        ∧ compileItem ⟨e, some 4⟩ = .ok (.vec4 w)
        ∧ ∀ n : Nat, n = 0 ∨ 5 ≤ n →
            compileItem ⟨e, some n⟩ = .error .unsupportedVectorization)
    ∧ (∀ (it : Item) (e' : CErr), compileElem it.elem = .error e' →
        compileItem it = .error e') := by
  refine ⟨⟨rfl, rfl, rfl, rfl, rfl, rfl, rfl⟩, ?_, ?_, ?_⟩
  · intro e he
    rcases e with k | k | k | _ | k | k <;> try cases k
    all_goals simp_all [compileElem]
  · intro e w h
    refine ⟨?_, ?_, ?_, ?_, ?_, ?_⟩
    · simp [compileItem, h]
    · simp [compileItem, h]
    · simp [compileItem, h]
    · simp [compileItem, h]
    · simp [compileItem, h]
    · intro n hn
      rcases n with _ | _ | _ | _ | _ | n
      · simp [compileItem, h]
      · omega
      · omega
      · omega
      · omega
      · simp [compileItem, h]
  · intro it e' h
    simp [compileItem, h]

/-- Witness for C3 at concrete inputs: `f64` is rejected, vectorization 4 on
`f32` gives a 4-lane vector, vectorization 5 is rejected. -/
theorem compileElem_compileItem_characterization_witness :
    compileElem (.float .f64) = .error .unsupportedType
    ∧ compileItem ⟨.float .f32, some 4⟩ = .ok (.vec4 .f32)
    ∧ compileItem ⟨.float .f32, some 5⟩ = .error .unsupportedVectorization := by
  refine ⟨?_, ?_, ?_⟩
  · exact compileElem_compileItem_characterization.2.1 _ (by decide)
  · exact (compileElem_compileItem_characterization.2.2.1 (.float .f32) .f32
      rfl).2.2.2.2.1
  · exact (compileElem_compileItem_characterization.2.2.1 (.float .f32) .f32
      rfl).2.2.2.2.2 5 (Or.inr (by omega))

/-! ## C1: the metadata position table -/

theorem extMetaScan_length (bs : List Binding) (n : Nat) :
    (extMetaScan bs n).1.length = bs.length := by
  induction bs generalizing n with
  | nil => rfl
  | cons b rest ih => simp [extMetaScan, ih]

theorem extMetaScan_getElem? (bs : List Binding) (n : Nat) (i : Nat)
    (hi : i < bs.length) :
    (extMetaScan bs n).1[i]?
      = some (n + (bs.take i).countP (·.has_extended_meta)) := by
  induction bs generalizing n i with
  | nil => simp at hi
  | cons b rest ih =>
    cases i with
    | zero => simp [extMetaScan]
    | succ i =>
      have hi' : i < rest.length := by
        simp [List.length_cons] at hi
        omega
      by_cases hb : b.has_extended_meta
      · simp [extMetaScan, ih _ i hi', hb, List.countP_cons]
        omega
      · simp [extMetaScan, ih _ i hi', hb, List.countP_cons]

theorem extMetaScan_count (bs : List Binding) (n : Nat) :
    (extMetaScan bs n).2 = n + bs.countP (·.has_extended_meta) := by
  induction bs generalizing n with
  | nil => simp [extMetaScan]
  | cons b rest ih =>
    by_cases hb : b.has_extended_meta <;>
      simp [extMetaScan, ih, hb, List.countP_cons] <;> omega

theorem extMetaScan_extended_entries (bs : List Binding) (n : Nat) :
    (bs.zip (extMetaScan bs n).1).filterMap
        (fun p => if p.1.has_extended_meta then some p.2 else none)
      = List.range' n (bs.countP (·.has_extended_meta)) := by
  induction bs generalizing n with
  | nil => simp [extMetaScan]
  | cons b rest ih =>
    by_cases hb : b.has_extended_meta
    · simp [extMetaScan, hb, List.countP_cons, ih, List.range'_succ]
    · simp [extMetaScan, hb, List.countP_cons, ih]

/-- C1.  After `compile_shader` initializes the metadata table, the
`ext_meta_pos` table has one entry per binding (inputs then outputs, in
order), the entry at position `i` counts the extended-meta bindings
strictly before `i`, and the entries at extended-meta positions are exactly
`0 .. E-1` for `E` extended bindings — in particular distinct and strictly
increasing. -/
theorem ext_meta_pos_table_characterization (st0 : CState)
    (k : KernelDefinition) :
    (initCompile st0 k).ext_meta_pos.length = (k.inputs ++ k.outputs).length
    ∧ (∀ i, i < (k.inputs ++ k.outputs).length →
        (initCompile st0 k).ext_meta_pos[i]?
          = some (((k.inputs ++ k.outputs).take i).countP
              (·.has_extended_meta)))
    ∧ ((k.inputs ++ k.outputs).zip (initCompile st0 k).ext_meta_pos).filterMap
          (fun p => if p.1.has_extended_meta then some p.2 else none)
        = List.range ((k.inputs ++ k.outputs).countP (·.has_extended_meta))
    ∧ (((k.inputs ++ k.outputs).zip
          (initCompile st0 k).ext_meta_pos).filterMap
          (fun p => if p.1.has_extended_meta then some p.2 else none)).Nodup
    ∧ (((k.inputs ++ k.outputs).zip
          (initCompile st0 k).ext_meta_pos).filterMap
          (fun p => if p.1.has_extended_meta then some p.2 else none)).Pairwise
        (· < ·) := by
  have hrange := extMetaScan_extended_entries (k.inputs ++ k.outputs) 0
  have heq : (initCompile st0 k).ext_meta_pos
      = (extMetaScan (k.inputs ++ k.outputs) 0).1 := rfl
  refine ⟨?_, ?_, ?_, ?_, ?_⟩
  · rw [heq, extMetaScan_length]
  · intro i hi
    rw [heq, extMetaScan_getElem? _ _ _ hi, Nat.zero_add]
  · rw [heq, hrange, List.range_eq_range']
  · rw [heq, hrange, ← List.range_eq_range']
    exact List.nodup_range _
  · rw [heq, hrange, ← List.range_eq_range']
    exact List.pairwise_lt_range _

/-- Witness for C1 on a kernel with three bindings, the first and third of
which have extended metadata: the table is `[0, 0, 1]` and the extended
entries are `[0, 1]`. -/
theorem ext_meta_pos_table_characterization_witness :
    (initCompile defaultCState
        { inputs := [⟨.storage, .readWrite, ⟨.float .f32, none⟩, none, true⟩,
                     ⟨.storage, .readWrite, ⟨.float .f32, none⟩, none, false⟩]
          outputs := [⟨.storage, .readWrite, ⟨.float .f32, none⟩, none, true⟩]
          named := []
          cube_dim := ⟨1, 1, 1⟩
          body := .mk [] [] [] }).ext_meta_pos[2]? = some 1 := by
  have h := (ext_meta_pos_table_characterization defaultCState
    { inputs := [⟨.storage, .readWrite, ⟨.float .f32, none⟩, none, true⟩,
                 ⟨.storage, .readWrite, ⟨.float .f32, none⟩, none, false⟩]
      outputs := [⟨.storage, .readWrite, ⟨.float .f32, none⟩, none, true⟩]
      named := []
      cube_dim := ⟨1, 1, 1⟩
      body := .mk [] [] [] }).2.1 2 (by decide)
  simpa using h

/-! ## C2: metadata offset resolution -/

theorem compileVariable_u32Var (st : CState) (n : Nat) :
    compileVariable st (u32Var n)
      = .ok (st, .constantScalar (.uint n) .u32) := rfl

/-- C2.  `compile_metadata` resolves the load offset through the metadata
position (`ext_meta_pos` slot `id` for `GlobalInputArray(id)`, slot
`num_inputs + id` for `GlobalOutputArray(id)`): `Rank` loads from
`rank_index`, `Shape` and `Stride` produce extended-meta loads from
`shape_offset_index` / `stride_offset_index` carrying the `dim` to add, and
`Length` / `BufferLength` load from `len_index` / `buffer_len_index` of the
global index; for a non-global variable, `Length` and `BufferLength` emit a
`Length` instruction instead. -/
theorem compile_metadata_characterization (st st2 st3 : CState)
    (id pos : Nat) (it : Item) (dim o : Variable) (wdim wout : WVar) :
    (st.ext_meta_pos[id]? = some pos →
      compileVariable st o = .ok (st2, wout) →
      compileMetadata st (.rank ⟨.globalInputArray id, it⟩) (some o)
        = .ok (st2, .metadataLoad wout
            (.constantScalar (.uint (st.metadata.rank_index pos)) .u32)))
    ∧ (st.ext_meta_pos[st.num_inputs + id]? = some pos →
      compileVariable st o = .ok (st2, wout) →
      compileMetadata st (.rank ⟨.globalOutputArray id, it⟩) (some o)
        = .ok (st2, .metadataLoad wout
            (.constantScalar (.uint (st.metadata.rank_index pos)) .u32)))
    ∧ (st.ext_meta_pos[id]? = some pos →
      compileVariable st dim = .ok (st2, wdim) →
      compileVariable st2 o = .ok (st3, wout) →
      compileMetadata st (.shape dim ⟨.globalInputArray id, it⟩) (some o)
        = .ok (st3, .extendedMeta
            (.constantScalar (.uint (st.metadata.shape_offset_index pos)) .u32)
            wdim wout))
    ∧ (st.ext_meta_pos[st.num_inputs + id]? = some pos →
      compileVariable st dim = .ok (st2, wdim) →
      compileVariable st2 o = .ok (st3, wout) →
      compileMetadata st (.shape dim ⟨.globalOutputArray id, it⟩) (some o)
        = .ok (st3, .extendedMeta
            (.constantScalar (.uint (st.metadata.shape_offset_index pos)) .u32)
            wdim wout))
    ∧ (st.ext_meta_pos[id]? = some pos →
      compileVariable st dim = .ok (st2, wdim) →
      compileVariable st2 o = .ok (st3, wout) →
      compileMetadata st (.stride dim ⟨.globalInputArray id, it⟩) (some o)
        = .ok (st3, .extendedMeta
            (.constantScalar (.uint (st.metadata.stride_offset_index pos))
              .u32)
            wdim wout))
    ∧ (st.ext_meta_pos[st.num_inputs + id]? = some pos →
      compileVariable st dim = .ok (st2, wdim) →
      compileVariable st2 o = .ok (st3, wout) →
      compileMetadata st (.stride dim ⟨.globalOutputArray id, it⟩) (some o)
        = .ok (st3, .extendedMeta
            (.constantScalar (.uint (st.metadata.stride_offset_index pos))
              .u32)
            wdim wout))
    ∧ (compileVariable st o = .ok (st2, wout) →
      compileMetadata st (.length ⟨.globalInputArray id, it⟩) (some o)
        = .ok (st2, .metadataLoad wout
            (.constantScalar (.uint (st.metadata.len_index id)) .u32)))
    ∧ (compileVariable st o = .ok (st2, wout) →
      compileMetadata st (.length ⟨.globalOutputArray id, it⟩) (some o)
        = .ok (st2, .metadataLoad wout
            (.constantScalar
              (.uint (st.metadata.len_index (st.num_inputs + id))) .u32)))
    ∧ (compileVariable st o = .ok (st2, wout) →
      compileMetadata st (.bufferLength ⟨.globalInputArray id, it⟩) (some o)
        = .ok (st2, .metadataLoad wout
            (.constantScalar (.uint (st.metadata.buffer_len_index id)) .u32)))
    ∧ (compileVariable st o = .ok (st2, wout) →
      compileMetadata st (.bufferLength ⟨.globalOutputArray id, it⟩) (some o)
        = .ok (st2, .metadataLoad wout
            (.constantScalar
              (.uint (st.metadata.buffer_len_index (st.num_inputs + id)))
              .u32)))
    ∧ (∀ var : Variable,
      (∀ i, var.kind ≠ .globalInputArray i) →
      (∀ i, var.kind ≠ .globalOutputArray i) →
      ∀ wv, compileVariable st var = .ok (st2, wv) →
      compileVariable st2 o = .ok (st3, wout) →
      compileMetadata st (.length var) (some o)
        = .ok (st3, .lengthOf wv wout)
      ∧ compileMetadata st (.bufferLength var) (some o)
        = .ok (st3, .lengthOf wv wout)) := by
  refine ⟨?_, ?_, ?_, ?_, ?_, ?_, ?_, ?_, ?_, ?_, ?_⟩
  · intro hpos ho
    simp [compileMetadata, extMetaPos, hpos, cv2, cv1, ho,
      compileVariable_u32Var]
  · intro hpos ho
    simp [compileMetadata, extMetaPos, hpos, cv2, cv1, ho,
      compileVariable_u32Var]
  · intro hpos hdim ho
    simp [compileMetadata, extMetaPos, hpos, cv3, cv2, cv1, hdim, ho,
      compileVariable_u32Var]
  · intro hpos hdim ho
    simp [compileMetadata, extMetaPos, hpos, cv3, cv2, cv1, hdim, ho,
      compileVariable_u32Var]
  · intro hpos hdim ho
    simp [compileMetadata, extMetaPos, hpos, cv3, cv2, cv1, hdim, ho,
      compileVariable_u32Var]
  · intro hpos hdim ho
    simp [compileMetadata, extMetaPos, hpos, cv3, cv2, cv1, hdim, ho,
      compileVariable_u32Var]
  · intro ho
    simp [compileMetadata, cv2, cv1, ho, compileVariable_u32Var]
  · intro ho
    simp [compileMetadata, cv2, cv1, ho, compileVariable_u32Var]
  · intro ho
    simp [compileMetadata, cv2, cv1, ho, compileVariable_u32Var]
  · intro ho
    simp [compileMetadata, cv2, cv1, ho, compileVariable_u32Var]
  · intro var hin hout wv hv ho
    rcases hk : var.kind with i | i | ⟨i, d⟩ | ⟨i, d, ver⟩ | i | ⟨i, d⟩ | i
      | c | ⟨i, l⟩ | ⟨i, l⟩ | ⟨i, d, l⟩ | b | _
    all_goals first
      | exact absurd hk (hin _)
      | exact absurd hk (hout _)
      | exact ⟨by simp [compileMetadata, hk, cv2, cv1, hv, ho],
          by simp [compileMetadata, hk, cv2, cv1, hv, ho]⟩

/-- Witness for C2: on a state with one input and one output binding
(`ext_meta_pos = [0, 1]`, `num_meta = 2`, `num_ext = 2`), a `Shape` request
over the input resolves to `shape_offset_index(0) = 6`. -/
theorem compile_metadata_characterization_witness :
    compileMetadata
        { defaultCState with
            num_inputs := 1, num_outputs := 1,
            metadata := ⟨2, 2⟩, ext_meta_pos := [0, 1] }
        (.shape (u32Var 1) ⟨.globalInputArray 0, ⟨.float .f32, none⟩⟩)
        (some ⟨.localVar 0 0, ⟨.uint .u32, none⟩⟩)
      = .ok ({ defaultCState with
                num_inputs := 1, num_outputs := 1,
                metadata := ⟨2, 2⟩, ext_meta_pos := [0, 1] },
             .extendedMeta (.constantScalar (.uint 6) .u32)
               (.constantScalar (.uint 1) .u32)
               (.localVar 0 (.scalar .u32) 0)) := by
  have h := (compile_metadata_characterization
    { defaultCState with
        num_inputs := 1, num_outputs := 1,
        metadata := ⟨2, 2⟩, ext_meta_pos := [0, 1] }
    { defaultCState with
        num_inputs := 1, num_outputs := 1,
        metadata := ⟨2, 2⟩, ext_meta_pos := [0, 1] }
    { defaultCState with
        num_inputs := 1, num_outputs := 1,
        metadata := ⟨2, 2⟩, ext_meta_pos := [0, 1] }
    0 0 ⟨.float .f32, none⟩ (u32Var 1)
    ⟨.localVar 0 0, ⟨.uint .u32, none⟩⟩
    (.constantScalar (.uint 1) .u32)
    (.localVar 0 (.scalar .u32) 0)).2.2.1 rfl rfl rfl
  simpa [MetaR.shape_offset_index] using h

/-! ## C7: checked vs unchecked indexing and the execution mode -/

/-- C7.  Checked and unchecked indexed accesses lower to the identical
target instruction (`Index`/`UncheckedIndex` both to `Index`,
`IndexAssign`/`UncheckedIndexAssign` both to `IndexAssign`), and the compile
entry point produces the same shader record for the `Checked` and
`Unchecked` execution modes — the mode is merely passed through towards
pipeline construction. -/
theorem checked_unchecked_lowering_equivalence :
    (∀ (st : CState) (op : BinOp) (out : Option Variable),
      compileInstr st (.index op) out
        = compileInstr st (.uncheckedIndex op) out)
    ∧ (∀ (st : CState) (op : BinOp) (out : Option Variable),
      compileInstr st (.indexAssign op) out
        = compileInstr st (.uncheckedIndexAssign op) out)
    ∧ (∀ (k : KernelDefinition) (m m' : ExecutionMode),
      compileKernel k m = compileKernel k m') := by
  refine ⟨fun st op out => ?_, fun st op out => ?_, fun k m m' => rfl⟩
  · cases out <;> rfl
  · cases out <;> rfl

/-! ## C8: determinism of compilation from fresh instances -/

/-- C8.  Compiling a kernel definition twice, each run starting from a fresh
default-initialized compiler instance, yields identical shader records: the
compile entry point is a pure function of the kernel definition alone
(it always starts from `Self::default()` and consumes nothing else). -/
theorem compile_two_runs_identical (k k' : KernelDefinition)
    (m m' : ExecutionMode) (h : k = k') :
    compileKernel k m = compileKernel k' m'
    ∧ compileKernel k m = compileShader defaultCState k := by
  subst h
  exact ⟨rfl, rfl⟩

/-- Witness for C8: two runs on a one-output kernel agree. -/
theorem compile_two_runs_identical_witness :
    compileKernel
        { inputs := []
          outputs := [⟨.storage, .readWrite, ⟨.float .f32, none⟩, none, true⟩]
          named := []
          cube_dim := ⟨1, 1, 1⟩
          body := .mk [] [] [(.branch .ret, none)] } .checked
      = compileKernel
        { inputs := []
          outputs := [⟨.storage, .readWrite, ⟨.float .f32, none⟩, none, true⟩]
          named := []
          cube_dim := ⟨1, 1, 1⟩
          body := .mk [] [] [(.branch .ret, none)] } .unchecked :=
  (compile_two_runs_identical _ _ .checked .unchecked rfl).1

/-! ## C10: declaration dedup is keyed by id alone -/

/-- C10.  Shared-memory and local-array dedup is keyed by `id` only: a first
reference records its own item and length as the declaration; a second
reference with the same `id` but a different item or length raises no
error, leaves the recorded declaration (the first sighting) unchanged, and
still returns a variable carrying the second reference's own item and
length. -/
theorem dedup_by_id_first_sighting (st : CState) (id : Nat)
    (len1 len2 depth1 depth2 : Nat) (it1 it2 : Item) (w1 w2 : WItem)
    (h1 : compileItem it1 = .ok w1) (h2 : compileItem it2 = .ok w2)
    (hs : st.shared_memories.all (·.index ≠ id))
    (hl : st.local_arrays.all (·.index ≠ id)) :
    compileVariable st ⟨.sharedMemory id len1, it1⟩
      = .ok ({ st with
                shared_memories := st.shared_memories ++ [⟨id, w1, len1⟩] },
             .sharedMemory id w1 len1)
    ∧ compileVariable
        { st with shared_memories := st.shared_memories ++ [⟨id, w1, len1⟩] }
        ⟨.sharedMemory id len2, it2⟩
      = .ok ({ st with
                shared_memories := st.shared_memories ++ [⟨id, w1, len1⟩] },
             .sharedMemory id w2 len2)
    ∧ compileVariable st ⟨.localArray id depth1 len1, it1⟩
      = .ok ({ st with
                local_arrays := st.local_arrays ++ [⟨id, w1, depth1, len1⟩] },
             .localArray id w1 depth1 len1)
    ∧ compileVariable
        { st with
            local_arrays := st.local_arrays ++ [⟨id, w1, depth1, len1⟩] }
        ⟨.localArray id depth2 len2, it2⟩
      = .ok ({ st with
                local_arrays := st.local_arrays ++ [⟨id, w1, depth1, len1⟩] },
             .localArray id w2 depth2 len2) := by
  have hs' : st.shared_memories.any (·.index = id) = false := by
    simp only [List.all_eq_true] at hs
    simp only [List.any_eq_false]
    intro x hx
    simpa using hs x hx
  have hl' : st.local_arrays.any (·.index = id) = false := by
    simp only [List.all_eq_true] at hl
    simp only [List.any_eq_false]
    intro x hx
    simpa using hl x hx
  refine ⟨?_, ?_, ?_, ?_⟩
  · simp [compileVariable, h1, hs']
  · simp [compileVariable, h2, List.any_append]
  · simp [compileVariable, h1, hl']
  · simp [compileVariable, h2, List.any_append]

/-- Witness for C10: shared memory id 3 first referenced with a scalar
`f32` item and length 256, then with a `u32` item and length 512. -/
theorem dedup_by_id_first_sighting_witness :
    compileVariable
        { defaultCState with
            shared_memories := [⟨3, .scalar .f32, 256⟩] }
        ⟨.sharedMemory 3 512, ⟨.uint .u32, none⟩⟩
      = .ok ({ defaultCState with
                shared_memories := [⟨3, .scalar .f32, 256⟩] },
             .sharedMemory 3 (.scalar .u32) 512) := by
  have h := (dedup_by_id_first_sighting defaultCState 3 256 512 0 0
    ⟨.float .f32, none⟩ ⟨.uint .u32, none⟩ (.scalar .f32) (.scalar .u32)
    rfl rfl (by decide) (by decide)).2.1
  simpa [defaultCState] using h

/-! ## Observable compiler state

The body traversal mutates exactly the built-in "used" flags and the
shared-memory / local-array declaration lists, and it does so only through
`compile_variable`.  `Obs` projects those fields out of the state; the key
lemma below shows every successful `compile_variable` call transforms them
by the pure step `updObs`. -/

structure Obs where
  local_invocation_index : Bool
  local_invocation_id : Bool
  global_invocation_id : Bool
  workgroup_id : Bool
  subgroup_size : Bool
  id : Bool
  num_workgroups : Bool
  workgroup_id_no_axis : Bool
  workgroup_size_no_axis : Bool
  num_workgroup_no_axis : Bool
  shared_memories : List SharedMemoryDecl
  local_arrays : List LocalArrayDecl
deriving DecidableEq, Repr

def CState.obs (st : CState) : Obs :=
  ⟨st.local_invocation_index, st.local_invocation_id,
   st.global_invocation_id, st.workgroup_id, st.subgroup_size, st.id,
   st.num_workgroups, st.workgroup_id_no_axis, st.workgroup_size_no_axis,
   st.num_workgroup_no_axis, st.shared_memories, st.local_arrays⟩

/-- The pure observable effect of lowering one variable reference. -/
def updObs (o : Obs) (v : Variable) : Obs :=
  match v.kind with
  | .sharedMemory id length =>
    match compileItem v.item with
    | .error _ => o
    | .ok it =>
      if o.shared_memories.any (·.index = id) then o
      else { o with shared_memories := o.shared_memories ++ [⟨id, it, length⟩] }
  | .localArray id depth length =>
    match compileItem v.item with
    | .error _ => o
    | .ok it =>
      if o.local_arrays.any (·.index = id) then o
      else
        { o with local_arrays := o.local_arrays ++ [⟨id, it, depth, length⟩] }
  | .builtin b =>
    match b with
    | .absolutePos => { o with id := true }
    | .unitPos => { o with local_invocation_index := true }
    | .unitPosX => { o with local_invocation_id := true }
    | .unitPosY => { o with local_invocation_id := true }
    | .unitPosZ => { o with local_invocation_id := true }
    | .cubePosX => { o with workgroup_id := true }
    | .cubePosY => { o with workgroup_id := true }
    | .cubePosZ => { o with workgroup_id := true }
    | .absolutePosX => { o with global_invocation_id := true }
    | .absolutePosY => { o with global_invocation_id := true }
    | .absolutePosZ => { o with global_invocation_id := true }
    | .cubeDimX => o
    | .cubeDimY => o
    | .cubeDimZ => o
    | .cubeCountX => { o with num_workgroups := true }
    | .cubeCountY => { o with num_workgroups := true }
    | .cubeCountZ => { o with num_workgroups := true }
    | .cubePos => { o with workgroup_id_no_axis := true }
    | .cubeDim => { o with workgroup_size_no_axis := true }
    | .cubeCount => { o with num_workgroup_no_axis := true }
    | .subcubeDim => { o with subgroup_size := true }
  | _ => o

theorem compileVariable_obs {st st' : CState} {v : Variable} {w : WVar}
    (h : compileVariable st v = .ok (st', w)) :
    st'.obs = updObs st.obs v := by
  obtain ⟨kind, item⟩ := v
  cases kind
  case globalInputArray id =>
    cases hci : compileItem item <;> simp [compileVariable, hci] at h
    rw [← h.1]
    rfl
  case globalScalar id =>
    cases hce : compileElem item.elem <;> simp [compileVariable, hce] at h
    rw [← h.1]
    rfl
  case localVar id depth =>
    cases hci : compileItem item <;> simp [compileVariable, hci] at h
    rw [← h.1]
    rfl
  case versioned id depth ver =>
    cases hci : compileItem item <;> simp [compileVariable, hci] at h
    rw [← h.1]
    rfl
  case localBinding id =>
    cases hci : compileItem item <;> simp [compileVariable, hci] at h
    rw [← h.1]
    rfl
  case slice id depth =>
    cases hci : compileItem item <;> simp [compileVariable, hci] at h
    rw [← h.1]
    rfl
  case globalOutputArray id =>
    cases hci : compileItem item <;> simp [compileVariable, hci] at h
    rw [← h.1]
    rfl
  case constantScalar c =>
    cases hce : compileElem c.elem <;> simp [compileVariable, hce] at h
    rw [← h.1]
    rfl
  case sharedMemory id length =>
    cases hci : compileItem item
    · simp [compileVariable, hci] at h
    · simp only [compileVariable, hci] at h
      split at h
      · rename_i hin
        simp only [Except.ok.injEq, Prod.mk.injEq] at h
        rw [← h.1]
        simp only [updObs, hci]
        have hin' : (st.obs.shared_memories.any
            fun x => decide (x.index = id)) = true := hin
        rw [if_pos hin']
      · rename_i hin
        simp only [Except.ok.injEq, Prod.mk.injEq] at h
        rw [← h.1]
        simp only [updObs, hci]
        have hin' : ¬ (st.obs.shared_memories.any
            fun x => decide (x.index = id)) = true := hin
        rw [if_neg hin']
        rfl
  case constantArray id length =>
    cases hci : compileItem item <;> simp [compileVariable, hci] at h
    rw [← h.1]
    rfl
  case localArray id depth length =>
    cases hci : compileItem item
    · simp [compileVariable, hci] at h
    · simp only [compileVariable, hci] at h
      split at h
      · rename_i hin
        simp only [Except.ok.injEq, Prod.mk.injEq] at h
        rw [← h.1]
        simp only [updObs, hci]
        have hin' : (st.obs.local_arrays.any
            fun x => decide (x.index = id)) = true := hin
        rw [if_pos hin']
      · rename_i hin
        simp only [Except.ok.injEq, Prod.mk.injEq] at h
        rw [← h.1]
        simp only [updObs, hci]
        have hin' : ¬ (st.obs.local_arrays.any
            fun x => decide (x.index = id)) = true := hin
        rw [if_neg hin']
        rfl
  case builtin b =>
    cases b <;> simp [compileVariable] at h <;> (rw [← h.1]; rfl)
  case matrix =>
    simp [compileVariable] at h

theorem cv1_obs {st st' : CState} {a : Variable} {k : WVar → Instr}
    {i : Instr} (h : cv1 st a k = .ok (st', i)) :
    st'.obs = updObs st.obs a := by
  unfold cv1 at h
  cases hca : compileVariable st a
  · rw [hca] at h
    exact absurd h (by simp)
  · rename_i p
    obtain ⟨st1, wa⟩ := p
    rw [hca] at h
    simp only [Except.ok.injEq, Prod.mk.injEq] at h
    rw [← h.1]
    exact compileVariable_obs hca

theorem cv2_obs {st st' : CState} {a b : Variable} {k : WVar → WVar → Instr}
    {i : Instr} (h : cv2 st a b k = .ok (st', i)) :
    st'.obs = updObs (updObs st.obs a) b := by
  unfold cv2 at h
  cases hca : compileVariable st a
  · rw [hca] at h
    exact absurd h (by simp)
  · rename_i p
    obtain ⟨st1, wa⟩ := p
    rw [hca] at h
    simp only [] at h
    rw [cv1_obs h, compileVariable_obs hca]

theorem cv3_obs {st st' : CState} {a b c : Variable}
    {k : WVar → WVar → WVar → Instr} {i : Instr}
    (h : cv3 st a b c k = .ok (st', i)) :
    st'.obs = updObs (updObs (updObs st.obs a) b) c := by
  unfold cv3 at h
  cases hca : compileVariable st a
  · rw [hca] at h
    exact absurd h (by simp)
  · rename_i p
    obtain ⟨st1, wa⟩ := p
    rw [hca] at h
    simp only [] at h
    rw [cv2_obs h, compileVariable_obs hca]

theorem cv4_obs {st st' : CState} {a b c d : Variable}
    {k : WVar → WVar → WVar → WVar → Instr} {i : Instr}
    (h : cv4 st a b c d k = .ok (st', i)) :
    st'.obs = updObs (updObs (updObs (updObs st.obs a) b) c) d := by
  unfold cv4 at h
  cases hca : compileVariable st a
  · rw [hca] at h
    exact absurd h (by simp)
  · rename_i p
    obtain ⟨st1, wa⟩ := p
    rw [hca] at h
    simp only [] at h
    rw [cv3_obs h, compileVariable_obs hca]

theorem cvList_obs {vs : List Variable} :
    ∀ {st st' : CState} {ws : List WVar},
    cvList st vs = .ok (st', ws) → st'.obs = vs.foldl updObs st.obs := by
  induction vs with
  | nil =>
    intro st st' ws h
    simp only [cvList, Except.ok.injEq, Prod.mk.injEq] at h
    rw [← h.1, List.foldl_nil]
  | cons v rest ih =>
    intro st st' ws h
    simp only [cvList] at h
    cases hcv : compileVariable st v
    · rw [hcv] at h
      exact absurd h (by simp)
    · rename_i p
      obtain ⟨st1, w⟩ := p
      rw [hcv] at h
      simp only [] at h
      cases hrest : cvList st1 rest
      · rw [hrest] at h
        exact absurd h (by simp)
      · rename_i q
        obtain ⟨st2, ws'⟩ := q
        rw [hrest] at h
        simp only [Except.ok.injEq, Prod.mk.injEq] at h
        rw [← h.1, List.foldl_cons, ← compileVariable_obs hcv]
        exact ih hrest

/-! ## The reference trace of the lowering

`…Refs` mirrors, per construct, the exact ordered list of IR variables the
lowering passes to `compile_variable` (the internal `u32` offset constants
of the metadata lowering are omitted: lowering a scalar constant never
changes the state). -/

def operatorRefs (value : Operator) (out : Option Variable) :
    List Variable :=
  match value with
  | .max op => [op.lhs, op.rhs] ++ out.toList
  | .min op => [op.lhs, op.rhs] ++ out.toList
  | .add op => [op.lhs, op.rhs] ++ out.toList
  | .fma op => [op.a, op.b, op.c] ++ out.toList
  | .index op => [op.lhs, op.rhs] ++ out.toList
  | .uncheckedIndex op => [op.lhs, op.rhs] ++ out.toList
  | .modulo op => [op.lhs, op.rhs] ++ out.toList
  | .sub op => [op.lhs, op.rhs] ++ out.toList
  | .mul op => [op.lhs, op.rhs] ++ out.toList
  | .div op => [op.lhs, op.rhs] ++ out.toList
  | .abs op => [op.input] ++ out.toList
  | .exp op => [op.input] ++ out.toList
  | .log op => [op.input] ++ out.toList
  | .log1p op => [op.input] ++ out.toList
  | .cos op => [op.input] ++ out.toList
  | .sin op => [op.input] ++ out.toList
  | .tanh op => [op.input] ++ out.toList
  | .powf op => [op.lhs, op.rhs] ++ out.toList
  | .sqrt op => [op.input] ++ out.toList
  | .round op => [op.input] ++ out.toList
  | .floor op => [op.input] ++ out.toList
  | .ceil op => [op.input] ++ out.toList
  | .erf op => [op.input] ++ out.toList
  | .recip op => [op.input] ++ out.toList
  | .equal op => [op.lhs, op.rhs] ++ out.toList
  | .lower op => [op.lhs, op.rhs] ++ out.toList
  | .clamp op => [op.input, op.min_value, op.max_value] ++ out.toList
  | .greater op => [op.lhs, op.rhs] ++ out.toList
  | .lowerEqual op => [op.lhs, op.rhs] ++ out.toList
  | .greaterEqual op => [op.lhs, op.rhs] ++ out.toList
  | .notEqual op => [op.lhs, op.rhs] ++ out.toList
  | .cast op => [op.input] ++ out.toList
  | .indexAssign op => [op.lhs, op.rhs] ++ out.toList
  | .uncheckedIndexAssign op => [op.lhs, op.rhs] ++ out.toList
  | .and op => [op.lhs, op.rhs] ++ out.toList
  | .or op => [op.lhs, op.rhs] ++ out.toList
  | .not op => [op.input] ++ out.toList
  | .bitwiseOr op => [op.lhs, op.rhs] ++ out.toList
  | .bitwiseAnd op => [op.lhs, op.rhs] ++ out.toList
  | .bitwiseXor op => [op.lhs, op.rhs] ++ out.toList
  | .shiftLeft op => [op.lhs, op.rhs] ++ out.toList
  | .shiftRight op => [op.lhs, op.rhs] ++ out.toList
  | .remainder op => [op.lhs, op.rhs] ++ out.toList
  | .sliceOp op => [op.input, op.start, op.stop] ++ out.toList
  | .bitcast op => [op.input] ++ out.toList
  | .neg op => [op.input] ++ out.toList
  | .magnitude op => [op.input] ++ out.toList
  | .normalize op => [op.input] ++ out.toList
  | .dot op => [op.lhs, op.rhs] ++ out.toList
  | .initLine op => op.inputs ++ out.toList
  | .copyMemory op => [op.input, op.in_index] ++ out.toList ++ [op.out_index]
  | .copyMemoryBulk op =>
    [op.input, op.in_index] ++ out.toList ++ [op.out_index]
  | .select op => [op.cond, op.then_, op.or_else] ++ out.toList

def atomicRefs (atomic : AtomicOp) (out : Option Variable) : List Variable :=
  match atomic with
  | .add op => [op.lhs, op.rhs] ++ out.toList
  | .sub op => [op.lhs, op.rhs] ++ out.toList
  | .max op => [op.lhs, op.rhs] ++ out.toList
  | .min op => [op.lhs, op.rhs] ++ out.toList
  | .and op => [op.lhs, op.rhs] ++ out.toList
  | .or op => [op.lhs, op.rhs] ++ out.toList
  | .xor op => [op.lhs, op.rhs] ++ out.toList
  | .load op => [op.input] ++ out.toList
  | .store op => [op.input] ++ out.toList
  | .swap op => [op.lhs, op.rhs] ++ out.toList
  | .compareAndSwap op => [op.input, op.cmp, op.val] ++ out.toList

def subcubeRefs (subgroup : Subcube) (out : Option Variable) :
    List Variable :=
  match subgroup with
  | .elect => out.toList
  | .all op => [op.input] ++ out.toList
  | .any op => [op.input] ++ out.toList
  | .broadcast op => [op.lhs, op.rhs] ++ out.toList
  | .sum op => [op.input] ++ out.toList
  | .prod op => [op.input] ++ out.toList
  | .min op => [op.input] ++ out.toList
  | .max op => [op.input] ++ out.toList

def metadataRefs (metadata : MetaOp) (out : Option Variable) :
    List Variable :=
  match metadata with
  | .rank _ => out.toList
  | .stride dim _ => [dim] ++ out.toList
  | .shape dim _ => [dim] ++ out.toList
  | .length var =>
    match var.kind with
    | .globalInputArray _ => out.toList
    | .globalOutputArray _ => out.toList
    | _ => [var] ++ out.toList
  | .bufferLength var =>
    match var.kind with
    | .globalInputArray _ => out.toList
    | .globalOutputArray _ => out.toList
    | _ => [var] ++ out.toList

mutual

def scopeRefs : Scope → List Variable
  | .mk constArrays vars ops =>
    constArrays.flatMap (·.values)
      ++ vars.filter (fun v => ! v.isSliceKind)
      ++ opsRefs ops

def opsRefs : List (Operation × Option Variable) → List Variable
  | [] => []
  | (op, out) :: rest => operationRefs op out ++ opsRefs rest

def operationRefs : Operation → Option Variable → List Variable
  | .copy vin, out => [vin] ++ out.toList
  | .operator o, out => operatorRefs o out
  | .atomic o, out => atomicRefs o out
  | .metadataOp m, out => metadataRefs m out
  | .branch b, _ => branchRefs b
  | .synchronization _, _ => []
  | .subcube s, out => subcubeRefs s out
  | .coopMma, _ => []

def branchRefs : Branch → List Variable
  | .ifCond cond scope => cond :: scopeRefs scope
  | .ifElse cond sIf sElse => cond :: (scopeRefs sIf ++ scopeRefs sElse)
  | .switch value sDefault cases =>
    value :: (scopeRefs sDefault ++ casesRefs cases)
  | .ret => []
  | .brk => []
  | .rangeLoop i start stop step _ scope =>
    [i, start, stop] ++ step.toList ++ scopeRefs scope
  | .loop scope => scopeRefs scope

def casesRefs : List (Variable × Scope) → List Variable
  | [] => []
  | (val, scope) :: rest => (val :: scopeRefs scope) ++ casesRefs rest

end

theorem compileInstr_obs {st st' : CState} {value : Operator}
    {out : Option Variable} {i : Instr}
    (h : compileInstr st value out = .ok (st', i)) :
    st'.obs = (operatorRefs value out).foldl updObs st.obs := by
  cases out with
  | none => exact absurd h (by simp [compileInstr])
  | some o =>
    cases value <;>
      first
        | exact cv2_obs h
        | exact cv3_obs h
        | exact cv4_obs h
        | skip
    case initLine op =>
      simp only [compileInstr] at h
      cases hl : cvList st op.inputs
      · rw [hl] at h
        exact absurd h (by simp)
      · rename_i p
        obtain ⟨st1, ws⟩ := p
        rw [hl] at h
        simp only [] at h
        have : (operatorRefs (.initLine op) (some o)).foldl updObs st.obs
            = updObs (op.inputs.foldl updObs st.obs) o := by
          simp [operatorRefs, List.foldl_append]
        rw [this, ← cvList_obs hl]
        exact cv1_obs h

theorem compileAtomic_obs {st st' : CState} {atomic : AtomicOp}
    {out : Option Variable} {i : Instr}
    (h : compileAtomic st atomic out = .ok (st', i)) :
    st'.obs = (atomicRefs atomic out).foldl updObs st.obs := by
  cases out with
  | none => exact absurd h (by simp [compileAtomic])
  | some o =>
    cases atomic <;>
      first
        | exact cv2_obs h
        | exact cv3_obs h
        | exact cv4_obs h

theorem compileSubgroup_obs {st st' : CState} {subgroup : Subcube}
    {out : Option Variable} {i : Instr}
    (h : compileSubgroup st subgroup out = .ok (st', i)) :
    st'.obs = (subcubeRefs subgroup out).foldl updObs st.obs := by
  cases out with
  | none => exact absurd h (by simp [compileSubgroup])
  | some o =>
    cases subgroup <;>
      first
        | exact cv1_obs h
        | exact cv2_obs h
        | exact cv3_obs h

theorem compileMetadata_obs {st st' : CState} {metadata : MetaOp}
    {out : Option Variable} {i : Instr}
    (h : compileMetadata st metadata out = .ok (st', i)) :
    st'.obs = (metadataRefs metadata out).foldl updObs st.obs := by
  cases out with
  | none => exact absurd h (by simp [compileMetadata])
  | some o =>
    cases metadata with
    | rank var =>
      simp only [compileMetadata] at h
      cases hm : extMetaPos st var
      · rw [hm] at h
        exact absurd h (by simp)
      · rw [hm] at h
        simp only [] at h
        exact cv2_obs h
    | stride dim var =>
      simp only [compileMetadata] at h
      cases hm : extMetaPos st var
      · rw [hm] at h
        exact absurd h (by simp)
      · rw [hm] at h
        simp only [] at h
        exact cv3_obs h
    | shape dim var =>
      simp only [compileMetadata] at h
      cases hm : extMetaPos st var
      · rw [hm] at h
        exact absurd h (by simp)
      · rw [hm] at h
        simp only [] at h
        exact cv3_obs h
    | length var =>
      obtain ⟨kind, item⟩ := var
      cases kind <;>
        first
          | exact cv2_obs h
          | exact @cv2_obs st st' _ o Instr.lengthOf i h
    | bufferLength var =>
      obtain ⟨kind, item⟩ := var
      cases kind <;>
        first
          | exact cv2_obs h
          | exact @cv2_obs st st' _ o Instr.lengthOf i h

theorem compileConstArrs_obs {cas : List ConstArrDecl} :
    ∀ {st st' : CState} {arrs : List ConstantArrayDecl},
    compileConstArrs st cas = .ok (st', arrs) →
    st'.obs = (cas.flatMap (·.values)).foldl updObs st.obs := by
  induction cas with
  | nil =>
    intro st st' arrs h
    simp only [compileConstArrs, Except.ok.injEq, Prod.mk.injEq] at h
    rw [← h.1]
    simp
  | cons d rest ih =>
    intro st st' arrs h
    simp only [compileConstArrs] at h
    cases hidx : d.var.index
    · rw [hidx] at h
      exact absurd h (by simp)
    · rw [hidx] at h
      simp only [] at h
      cases hit : compileItem d.var.item
      · rw [hit] at h
        exact absurd h (by simp)
      · rw [hit] at h
        simp only [] at h
        cases hvs : cvList st d.values
        · rw [hvs] at h
          exact absurd h (by simp)
        · rename_i p
          obtain ⟨st1, ws⟩ := p
          rw [hvs] at h
          simp only [] at h
          cases hrest : compileConstArrs st1 rest
          · rw [hrest] at h
            exact absurd h (by simp)
          · rename_i q
            obtain ⟨st2, ds⟩ := q
            rw [hrest] at h
            simp only [Except.ok.injEq, Prod.mk.injEq] at h
            rw [← h.1]
            rw [List.flatMap_cons, List.foldl_append, ← cvList_obs hvs]
            exact ih hrest

theorem compileDecls_obs {vs : List Variable} :
    ∀ {st st' : CState} {is : List Instr},
    compileDecls st vs = .ok (st', is) →
    st'.obs = (vs.filter (fun v => ! v.isSliceKind)).foldl updObs st.obs := by
  induction vs with
  | nil =>
    intro st st' is h
    simp only [compileDecls, Except.ok.injEq, Prod.mk.injEq] at h
    rw [← h.1]
    simp
  | cons v rest ih =>
    intro st st' is h
    simp only [compileDecls] at h
    by_cases hsk : v.isSliceKind
    · rw [if_pos hsk] at h
      rw [List.filter_cons]
      simp only [hsk, Bool.not_true, Bool.false_eq_true, if_false]
      exact ih h
    · rw [if_neg hsk] at h
      cases hcv : compileVariable st v
      · rw [hcv] at h
        exact absurd h (by simp)
      · rename_i p
        obtain ⟨st1, w⟩ := p
        rw [hcv] at h
        simp only [] at h
        cases hrest : compileDecls st1 rest
        · rw [hrest] at h
          exact absurd h (by simp)
        · rename_i q
          obtain ⟨st2, is2⟩ := q
          rw [hrest] at h
          simp only [Except.ok.injEq, Prod.mk.injEq] at h
          rw [← h.1]
          rw [List.filter_cons]
          simp only [Bool.not_eq_true] at hsk
          simp only [hsk, Bool.not_false, if_true]
          rw [List.foldl_cons, ← compileVariable_obs hcv]
          exact ih hrest

theorem scope_one_le_sizeOf (s : Scope) : 1 ≤ sizeOf s := by
  cases s
  simp_arith

theorem operation_one_le_sizeOf (op : Operation) : 1 ≤ sizeOf op := by
  cases op <;> simp_arith

theorem branch_one_le_sizeOf (b : Branch) : 1 ≤ sizeOf b := by
  cases b <;> simp_arith

/-- The master state lemma: every successful run of the mutually recursive
scope lowering transforms the observable state by the pure left fold of
`updObs` over the construct's reference trace. -/
theorem masterObs : ∀ n : Nat,
    (∀ (s : Scope) (st st' : CState) (r : List Instr), sizeOf s ≤ n →
      compileScope st s = .ok (st', r) →
      st'.obs = (scopeRefs s).foldl updObs st.obs)
    ∧ (∀ (ops : List (Operation × Option Variable)) (st st' : CState)
        (r : List Instr), sizeOf ops ≤ n →
      compileOps st ops = .ok (st', r) →
      st'.obs = (opsRefs ops).foldl updObs st.obs)
    ∧ (∀ (op : Operation) (out : Option Variable) (st st' : CState)
        (r : Instr), sizeOf op ≤ n →
      compileOperation st op out = .ok (st', r) →
      st'.obs = (operationRefs op out).foldl updObs st.obs)
    ∧ (∀ (b : Branch) (st st' : CState) (r : Instr), sizeOf b ≤ n →
      compileBranch st b = .ok (st', r) →
      st'.obs = (branchRefs b).foldl updObs st.obs)
    ∧ (∀ (cs : List (Variable × Scope)) (st st' : CState)
        (r : List (WVar × List Instr)), sizeOf cs ≤ n →
      compileCases st cs = .ok (st', r) →
      st'.obs = (casesRefs cs).foldl updObs st.obs) := by
  intro n
  induction n with
  | zero =>
    refine ⟨?_, ?_, ?_, ?_, ?_⟩
    · intro s st st' r hs
      have := scope_one_le_sizeOf s
      omega
    · intro ops st st' r hs h
      cases ops with
      | nil =>
        simp only [compileOps, Except.ok.injEq, Prod.mk.injEq] at h
        rw [← h.1]
        simp [opsRefs]
      | cons p rest => simp_arith at hs
    · intro op out st st' r hs
      have := operation_one_le_sizeOf op
      omega
    · intro b st st' r hs
      have := branch_one_le_sizeOf b
      omega
    · intro cs st st' r hs h
      cases cs with
      | nil =>
        simp only [compileCases, Except.ok.injEq, Prod.mk.injEq] at h
        rw [← h.1]
        simp [casesRefs]
      | cons p rest => simp_arith at hs
  | succ n ih =>
    obtain ⟨ihS, ihO, ihP, ihB, ihC⟩ := ih
    refine ⟨?_, ?_, ?_, ?_, ?_⟩
    · -- compileScope
      intro s st st' r hs h
      obtain ⟨cas, vars, ops⟩ := s
      have hops : sizeOf ops ≤ n := by
        simp_arith at hs
        omega
      simp only [compileScope] at h
      cases hca : compileConstArrs st cas
      · rw [hca] at h
        exact absurd h (by simp)
      · rename_i p
        obtain ⟨st1, arrs⟩ := p
        rw [hca] at h
        simp only [] at h
        cases hd : compileDecls
            { st1 with const_arrays := st1.const_arrays ++ arrs } vars
        · rw [hd] at h
          exact absurd h (by simp)
        · rename_i q
          obtain ⟨st3, decls⟩ := q
          rw [hd] at h
          simp only [] at h
          cases hop : compileOps st3 ops
          · rw [hop] at h
            exact absurd h (by simp)
          · rename_i q2
            obtain ⟨st4, instrs⟩ := q2
            rw [hop] at h
            simp only [Except.ok.injEq, Prod.mk.injEq] at h
            rw [← h.1]
            have h1 : st1.obs = (cas.flatMap (·.values)).foldl updObs st.obs :=
              compileConstArrs_obs hca
            have h2 : ({ st1 with
                const_arrays := st1.const_arrays ++ arrs } : CState).obs
                = st1.obs := rfl
            have h3 : st3.obs
                = (vars.filter (fun v => ! v.isSliceKind)).foldl updObs
                    st1.obs := by
              rw [← h2]
              exact compileDecls_obs hd
            have h4 : st4.obs = (opsRefs ops).foldl updObs st3.obs :=
              ihO ops st3 st4 instrs hops hop
            simp only [scopeRefs, List.foldl_append]
            rw [h4, h3, h1]
    · -- compileOps
      intro ops st st' r hs h
      cases ops with
      | nil =>
        simp only [compileOps, Except.ok.injEq, Prod.mk.injEq] at h
        rw [← h.1]
        simp [opsRefs]
      | cons p rest =>
        obtain ⟨op, out⟩ := p
        have hsz : sizeOf op ≤ n ∧ sizeOf rest ≤ n := by
          simp_arith at hs
          omega
        simp only [compileOps] at h
        cases hco : compileOperation st op out
        · rw [hco] at h
          exact absurd h (by simp)
        · rename_i p2
          obtain ⟨st1, instr⟩ := p2
          rw [hco] at h
          simp only [] at h
          cases hrest : compileOps st1 rest
          · rw [hrest] at h
            exact absurd h (by simp)
          · rename_i q
            obtain ⟨st2, instrs⟩ := q
            rw [hrest] at h
            simp only [Except.ok.injEq, Prod.mk.injEq] at h
            rw [← h.1]
            simp only [opsRefs, List.foldl_append]
            rw [ihO rest st1 st2 instrs hsz.2 hrest,
              ihP op out st st1 instr hsz.1 hco]
    · -- compileOperation
      intro op out st st' r hs h
      cases op with
      | copy vin =>
        simp only [compileOperation] at h
        cases hcv : compileVariable st vin
        · rw [hcv] at h
          exact absurd h (by simp)
        · rename_i p
          obtain ⟨st1, wv⟩ := p
          rw [hcv] at h
          simp only [] at h
          cases out with
          | none => exact absurd h (by simp)
          | some o =>
            simp only [] at h
            cases hco : compileVariable st1 o
            · rw [hco] at h
              exact absurd h (by simp)
            · rename_i q
              obtain ⟨st2, wo⟩ := q
              rw [hco] at h
              simp only [Except.ok.injEq, Prod.mk.injEq] at h
              rw [← h.1]
              simp only [operationRefs, Option.toList, List.cons_append,
                List.nil_append, List.foldl_cons, List.foldl_nil]
              rw [compileVariable_obs hco, compileVariable_obs hcv]
      | operator o => exact compileInstr_obs h
      | atomic o => exact compileAtomic_obs h
      | metadataOp m => exact compileMetadata_obs h
      | branch b =>
        have hb : sizeOf b ≤ n := by
          simp_arith at hs
          omega
        exact ihB b st st' r hb h
      | synchronization s =>
        cases s <;>
          (simp only [compileOperation, Except.ok.injEq, Prod.mk.injEq] at h
           rw [← h.1]
           rfl)
      | subcube s => exact compileSubgroup_obs h
      | coopMma => exact absurd h (by simp [compileOperation])
    · -- compileBranch
      intro b st st' r hs h
      cases b with
      | ifCond cond scope =>
        have hsc : sizeOf scope ≤ n := by
          simp_arith at hs
          omega
        simp only [compileBranch] at h
        cases hcv : compileVariable st cond
        · rw [hcv] at h
          exact absurd h (by simp)
        · rename_i p
          obtain ⟨st1, wcond⟩ := p
          rw [hcv] at h
          simp only [] at h
          cases hsc2 : compileScope st1 scope
          · rw [hsc2] at h
            exact absurd h (by simp)
          · rename_i q
            obtain ⟨st2, instrs⟩ := q
            rw [hsc2] at h
            simp only [Except.ok.injEq, Prod.mk.injEq] at h
            rw [← h.1]
            simp only [branchRefs, List.foldl_cons]
            rw [ihS scope st1 st2 instrs hsc hsc2, compileVariable_obs hcv]
      | ifElse cond sIf sElse =>
        have hsz : sizeOf sIf ≤ n ∧ sizeOf sElse ≤ n := by
          simp_arith at hs
          omega
        simp only [compileBranch] at h
        cases hcv : compileVariable st cond
        · rw [hcv] at h
          exact absurd h (by simp)
        · rename_i p
          obtain ⟨st1, wcond⟩ := p
          rw [hcv] at h
          simp only [] at h
          cases h1 : compileScope st1 sIf
          · rw [h1] at h
            exact absurd h (by simp)
          · rename_i q
            obtain ⟨st2, iIf⟩ := q
            rw [h1] at h
            simp only [] at h
            cases h2 : compileScope st2 sElse
            · rw [h2] at h
              exact absurd h (by simp)
            · rename_i q2
              obtain ⟨st3, iElse⟩ := q2
              rw [h2] at h
              simp only [Except.ok.injEq, Prod.mk.injEq] at h
              rw [← h.1]
              simp only [branchRefs, List.foldl_cons, List.foldl_append]
              rw [ihS sElse st2 st3 iElse hsz.2 h2,
                ihS sIf st1 st2 iIf hsz.1 h1, compileVariable_obs hcv]
      | switch value sDefault cases_ =>
        have hsz : sizeOf sDefault ≤ n ∧ sizeOf cases_ ≤ n := by
          simp_arith at hs
          omega
        simp only [compileBranch] at h
        cases hcv : compileVariable st value
        · rw [hcv] at h
          exact absurd h (by simp)
        · rename_i p
          obtain ⟨st1, wvalue⟩ := p
          rw [hcv] at h
          simp only [] at h
          cases h1 : compileScope st1 sDefault
          · rw [h1] at h
            exact absurd h (by simp)
          · rename_i q
            obtain ⟨st2, iDefault⟩ := q
            rw [h1] at h
            simp only [] at h
            cases h2 : compileCases st2 cases_
            · rw [h2] at h
              exact absurd h (by simp)
            · rename_i q2
              obtain ⟨st3, wcases⟩ := q2
              rw [h2] at h
              simp only [Except.ok.injEq, Prod.mk.injEq] at h
              rw [← h.1]
              simp only [branchRefs, List.foldl_cons, List.foldl_append]
              rw [ihC cases_ st2 st3 wcases hsz.2 h2,
                ihS sDefault st1 st2 iDefault hsz.1 h1,
                compileVariable_obs hcv]
      | ret =>
        simp only [compileBranch, Except.ok.injEq, Prod.mk.injEq] at h
        rw [← h.1]
        rfl
      | brk =>
        simp only [compileBranch, Except.ok.injEq, Prod.mk.injEq] at h
        rw [← h.1]
        rfl
      | rangeLoop i start stop step inclusive scope =>
        have hsc : sizeOf scope ≤ n := by
          simp_arith at hs
          omega
        simp only [compileBranch] at h
        cases hi : compileVariable st i
        · rw [hi] at h
          exact absurd h (by simp)
        · rename_i p
          obtain ⟨st1, wi⟩ := p
          rw [hi] at h
          simp only [] at h
          cases hst : compileVariable st1 start
          · rw [hst] at h
            exact absurd h (by simp)
          · rename_i q
            obtain ⟨st2, wstart⟩ := q
            rw [hst] at h
            simp only [] at h
            cases hsp : compileVariable st2 stop
            · rw [hsp] at h
              exact absurd h (by simp)
            · rename_i q2
              obtain ⟨st3, wstop⟩ := q2
              rw [hsp] at h
              simp only [] at h
              cases step with
              | none =>
                simp only [] at h
                cases hscope : compileScope st3 scope
                · rw [hscope] at h
                  exact absurd h (by simp)
                · rename_i q3
                  obtain ⟨st4, instrs⟩ := q3
                  rw [hscope] at h
                  simp only [Except.ok.injEq, Prod.mk.injEq] at h
                  rw [← h.1]
                  simp only [branchRefs, Option.toList, List.foldl_cons,
                    List.foldl_append, List.foldl_nil]
                  rw [ihS scope st3 st4 instrs hsc hscope,
                    compileVariable_obs hsp, compileVariable_obs hst,
                    compileVariable_obs hi]
              | some stepVar =>
                simp only [] at h
                cases hsv : compileVariable st3 stepVar
                · rw [hsv] at h
                  exact absurd h (by simp)
                · rename_i q3
                  obtain ⟨st4, wstep⟩ := q3
                  rw [hsv] at h
                  simp only [] at h
                  cases hscope : compileScope st4 scope
                  · rw [hscope] at h
                    exact absurd h (by simp)
                  · rename_i q4
                    obtain ⟨st5, instrs⟩ := q4
                    rw [hscope] at h
                    simp only [Except.ok.injEq, Prod.mk.injEq] at h
                    rw [← h.1]
                    simp only [branchRefs, Option.toList, List.foldl_cons,
                      List.foldl_append, List.foldl_nil]
                    rw [ihS scope st4 st5 instrs hsc hscope,
                      compileVariable_obs hsv, compileVariable_obs hsp,
                      compileVariable_obs hst, compileVariable_obs hi]
      | loop scope =>
        have hsc : sizeOf scope ≤ n := by
          simp_arith at hs
          omega
        simp only [compileBranch] at h
        cases hscope : compileScope st scope
        · rw [hscope] at h
          exact absurd h (by simp)
        · rename_i q
          obtain ⟨st1, instrs⟩ := q
          rw [hscope] at h
          simp only [Except.ok.injEq, Prod.mk.injEq] at h
          rw [← h.1]
          simp only [branchRefs]
          exact ihS scope st st1 instrs hsc hscope
    · -- compileCases
      intro cs st st' r hs h
      cases cs with
      | nil =>
        simp only [compileCases, Except.ok.injEq, Prod.mk.injEq] at h
        rw [← h.1]
        simp [casesRefs]
      | cons p rest =>
        obtain ⟨val, scope⟩ := p
        have hsz : sizeOf scope ≤ n ∧ sizeOf rest ≤ n := by
          simp_arith at hs
          omega
        simp only [compileCases] at h
        cases hcv : compileVariable st val
        · rw [hcv] at h
          exact absurd h (by simp)
        · rename_i p2
          obtain ⟨st1, wval⟩ := p2
          rw [hcv] at h
          simp only [] at h
          cases h1 : compileScope st1 scope
          · rw [h1] at h
            exact absurd h (by simp)
          · rename_i q
            obtain ⟨st2, instrs⟩ := q
            rw [h1] at h
            simp only [] at h
            cases h2 : compileCases st2 rest
            · rw [h2] at h
              exact absurd h (by simp)
            · rename_i q2
              obtain ⟨st3, ws⟩ := q2
              rw [h2] at h
              simp only [Except.ok.injEq, Prod.mk.injEq] at h
              rw [← h.1]
              simp only [casesRefs, List.foldl_cons, List.foldl_append]
              rw [ihC rest st2 st3 ws hsz.2 h2,
                ihS scope st1 st2 instrs hsz.1 h1, compileVariable_obs hcv]

/-! ## C4: built-in flags -/

def isAbsPosFlat (v : Variable) : Bool :=
  match v.kind with
  | .builtin .absolutePos => true
  | _ => false

def isUnitPosFlat (v : Variable) : Bool :=
  match v.kind with
  | .builtin .unitPos => true
  | _ => false

def isUnitPosAxis (v : Variable) : Bool :=
  match v.kind with
  | .builtin .unitPosX => true
  | .builtin .unitPosY => true
  | .builtin .unitPosZ => true
  | _ => false

def isCubePosAxis (v : Variable) : Bool :=
  match v.kind with
  | .builtin .cubePosX => true
  | .builtin .cubePosY => true
  | .builtin .cubePosZ => true
  | _ => false

def isAbsPosAxis (v : Variable) : Bool :=
  match v.kind with
  | .builtin .absolutePosX => true
  | .builtin .absolutePosY => true
  | .builtin .absolutePosZ => true
  | _ => false

def isCubeCountAxis (v : Variable) : Bool :=
  match v.kind with
  | .builtin .cubeCountX => true
  | .builtin .cubeCountY => true
  | .builtin .cubeCountZ => true
  | _ => false

def isCubePosFlat (v : Variable) : Bool :=
  match v.kind with
  | .builtin .cubePos => true
  | _ => false

def isCubeDimFlat (v : Variable) : Bool :=
  match v.kind with
  | .builtin .cubeDim => true
  | _ => false

def isCubeCountFlat (v : Variable) : Bool :=
  match v.kind with
  | .builtin .cubeCount => true
  | _ => false

def isSubcubeDimFlat (v : Variable) : Bool :=
  match v.kind with
  | .builtin .subcubeDim => true
  | _ => false

theorem foldl_updObs_flag (p : Obs → Bool) (q : Variable → Bool)
    (hstep : ∀ (o : Obs) (v : Variable), p (updObs o v) = (p o || q v)) :
    ∀ (l : List Variable) (o : Obs),
      p (l.foldl updObs o) = (p o || l.any q) := by
  intro l
  induction l with
  | nil => intro o; simp
  | cons v rest ihl =>
    intro o
    simp only [List.foldl_cons, List.any_cons, ihl, hstep, Bool.or_assoc]

theorem flag_step_id (o : Obs) (v : Variable) :
    (updObs o v).id = (o.id || isAbsPosFlat v) := by
  obtain ⟨kind, item⟩ := v
  cases kind <;> simp [updObs, isAbsPosFlat]
  case sharedMemory i l =>
    cases hci : compileItem item <;> simp [hci]
    split <;> rfl
  case localArray i d l =>
    cases hci : compileItem item <;> simp [hci]
    split <;> rfl
  case builtin b => cases b <;> simp

theorem flag_step_liidx (o : Obs) (v : Variable) :
    (updObs o v).local_invocation_index
      = (o.local_invocation_index || isUnitPosFlat v) := by
  obtain ⟨kind, item⟩ := v
  cases kind <;> simp [updObs, isUnitPosFlat]
  case sharedMemory i l =>
    cases hci : compileItem item <;> simp [hci]
    split <;> rfl
  case localArray i d l =>
    cases hci : compileItem item <;> simp [hci]
    split <;> rfl
  case builtin b => cases b <;> simp

theorem flag_step_liid (o : Obs) (v : Variable) :
    (updObs o v).local_invocation_id
      = (o.local_invocation_id || isUnitPosAxis v) := by
  obtain ⟨kind, item⟩ := v
  cases kind <;> simp [updObs, isUnitPosAxis]
  case sharedMemory i l =>
    cases hci : compileItem item <;> simp [hci]
    split <;> rfl
  case localArray i d l =>
    cases hci : compileItem item <;> simp [hci]
    split <;> rfl
  case builtin b => cases b <;> simp

theorem flag_step_wid (o : Obs) (v : Variable) :
    (updObs o v).workgroup_id = (o.workgroup_id || isCubePosAxis v) := by
  obtain ⟨kind, item⟩ := v
  cases kind <;> simp [updObs, isCubePosAxis]
  case sharedMemory i l =>
    cases hci : compileItem item <;> simp [hci]
    split <;> rfl
  case localArray i d l =>
    cases hci : compileItem item <;> simp [hci]
    split <;> rfl
  case builtin b => cases b <;> simp

theorem flag_step_gii (o : Obs) (v : Variable) :
    (updObs o v).global_invocation_id
      = (o.global_invocation_id || isAbsPosAxis v) := by
  obtain ⟨kind, item⟩ := v
  cases kind <;> simp [updObs, isAbsPosAxis]
  case sharedMemory i l =>
    cases hci : compileItem item <;> simp [hci]
    split <;> rfl
  case localArray i d l =>
    cases hci : compileItem item <;> simp [hci]
    split <;> rfl
  case builtin b => cases b <;> simp

theorem flag_step_nw (o : Obs) (v : Variable) :
    (updObs o v).num_workgroups = (o.num_workgroups || isCubeCountAxis v) := by
  obtain ⟨kind, item⟩ := v
  cases kind <;> simp [updObs, isCubeCountAxis]
  case sharedMemory i l =>
    cases hci : compileItem item <;> simp [hci]
    split <;> rfl
  case localArray i d l =>
    cases hci : compileItem item <;> simp [hci]
    split <;> rfl
  case builtin b => cases b <;> simp

theorem flag_step_widna (o : Obs) (v : Variable) :
    (updObs o v).workgroup_id_no_axis
      = (o.workgroup_id_no_axis || isCubePosFlat v) := by
  obtain ⟨kind, item⟩ := v
  cases kind <;> simp [updObs, isCubePosFlat]
  case sharedMemory i l =>
    cases hci : compileItem item <;> simp [hci]
    split <;> rfl
  case localArray i d l =>
    cases hci : compileItem item <;> simp [hci]
    split <;> rfl
  case builtin b => cases b <;> simp

theorem flag_step_wsna (o : Obs) (v : Variable) :
    (updObs o v).workgroup_size_no_axis
      = (o.workgroup_size_no_axis || isCubeDimFlat v) := by
  obtain ⟨kind, item⟩ := v
  cases kind <;> simp [updObs, isCubeDimFlat]
  case sharedMemory i l =>
    cases hci : compileItem item <;> simp [hci]
    split <;> rfl
  case localArray i d l =>
    cases hci : compileItem item <;> simp [hci]
    split <;> rfl
  case builtin b => cases b <;> simp

theorem flag_step_nwna (o : Obs) (v : Variable) :
    (updObs o v).num_workgroup_no_axis
      = (o.num_workgroup_no_axis || isCubeCountFlat v) := by
  obtain ⟨kind, item⟩ := v
  cases kind <;> simp [updObs, isCubeCountFlat]
  case sharedMemory i l =>
    cases hci : compileItem item <;> simp [hci]
    split <;> rfl
  case localArray i d l =>
    cases hci : compileItem item <;> simp [hci]
    split <;> rfl
  case builtin b => cases b <;> simp

theorem flag_step_sgs (o : Obs) (v : Variable) :
    (updObs o v).subgroup_size = (o.subgroup_size || isSubcubeDimFlat v) := by
  obtain ⟨kind, item⟩ := v
  cases kind <;> simp [updObs, isSubcubeDimFlat]
  case sharedMemory i l =>
    cases hci : compileItem item <;> simp [hci]
    split <;> rfl
  case localArray i d l =>
    cases hci : compileItem item <;> simp [hci]
    split <;> rfl
  case builtin b => cases b <;> simp

theorem list_any_or {α : Type _} (l : List α) (p q : α → Bool) :
    l.any (fun a => p a || q a) = (l.any p || l.any q) := by
  induction l with
  | nil => rfl
  | cons a rest ihl =>
    simp only [List.any_cons, ihl]
    cases p a <;> cases q a <;> cases rest.any p <;> cases rest.any q <;> rfl

/-- Destructuring a successful `compile_shader` run: the body was lowered
from the initialized state, and every output field comes from the final
lowering state exactly as the source's record construction writes it. -/
theorem compileShader_ok {st0 : CState} {k : KernelDefinition}
    {shader : ComputeShader} (h : compileShader st0 k = .ok shader) :
    ∃ st instrs,
      compileScope (initCompile st0 k) k.body = .ok (st, instrs)
      ∧ shader.global_invocation_id = (st.global_invocation_id || st.id)
      ∧ shader.local_invocation_index = st.local_invocation_index
      ∧ shader.local_invocation_id = st.local_invocation_id
      ∧ shader.num_workgroups
          = (st.id || st.num_workgroups || st.num_workgroup_no_axis
              || st.workgroup_id_no_axis)
      ∧ shader.workgroup_id = (st.workgroup_id || st.workgroup_id_no_axis)
      ∧ shader.subgroup_size = st.subgroup_size
      ∧ shader.body = ⟨instrs, st.id⟩
      ∧ shader.num_workgroups_no_axis = st.num_workgroup_no_axis
      ∧ shader.workgroup_id_no_axis = st.workgroup_id_no_axis
      ∧ shader.workgroup_size_no_axis = st.workgroup_size_no_axis
      ∧ shader.shared_memories = st.shared_memories
      ∧ shader.local_arrays = st.local_arrays
      ∧ shader.extensions = registerExtensions instrs := by
  unfold compileShader at h
  dsimp only [] at h
  cases hsc : compileScope (initCompile st0 k) k.body
  · rw [hsc] at h
    exact absurd h (by simp)
  · rename_i p
    obtain ⟨st, instrs⟩ := p
    rw [hsc] at h
    simp only [] at h
    cases hin : compileBindings k.inputs
    · rw [hin] at h
      exact absurd h (by simp)
    · rw [hin] at h
      simp only [] at h
      cases hout : compileBindings k.outputs
      · rw [hout] at h
        exact absurd h (by simp)
      · rw [hout] at h
        simp only [] at h
        cases hnm : compileNamed k.named
        · rw [hnm] at h
          exact absurd h (by simp)
        · rw [hnm] at h
          simp only [Except.ok.injEq] at h
          refine ⟨st, instrs, rfl, ?_⟩
          rw [← h]
          simp_all

/-- C4.  The compiled shader's built-in flags are exactly determined by the
built-ins lowered from the body: `global_invocation_id` is advertised iff
some per-axis absolute position or the flat absolute position occurs;
`num_workgroups` iff some per-axis cube count, flat cube count, flat cube
position or flat absolute position occurs; `workgroup_id` iff some per-axis
cube position or the flat cube position occurs; every remaining flag equals
the occurrence of its own built-in, and `CubeDim{X,Y,Z}` set no flag. -/
theorem builtin_flag_advertisement (k : KernelDefinition)
    (mode : ExecutionMode) (shader : ComputeShader)
    (h : compileKernel k mode = .ok shader) :
    shader.global_invocation_id
        = (scopeRefs k.body).any (fun v => isAbsPosAxis v || isAbsPosFlat v)
    ∧ shader.num_workgroups
        = (scopeRefs k.body).any (fun v =>
            isCubeCountAxis v || isCubeCountFlat v || isCubePosFlat v
              || isAbsPosFlat v)
    ∧ shader.workgroup_id
        = (scopeRefs k.body).any (fun v => isCubePosAxis v || isCubePosFlat v)
    ∧ shader.local_invocation_index = (scopeRefs k.body).any isUnitPosFlat
    ∧ shader.local_invocation_id = (scopeRefs k.body).any isUnitPosAxis
    ∧ shader.subgroup_size = (scopeRefs k.body).any isSubcubeDimFlat
    ∧ shader.body.id = (scopeRefs k.body).any isAbsPosFlat
    ∧ shader.num_workgroups_no_axis = (scopeRefs k.body).any isCubeCountFlat
    ∧ shader.workgroup_id_no_axis = (scopeRefs k.body).any isCubePosFlat
    ∧ shader.workgroup_size_no_axis = (scopeRefs k.body).any isCubeDimFlat
    := by
  obtain ⟨st, instrs, hsc, hf⟩ := compileShader_ok h
  have hobs : st.obs
      = (scopeRefs k.body).foldl updObs (initCompile defaultCState k).obs :=
    (masterObs (sizeOf k.body)).1 k.body _ st instrs le_rfl hsc
  have hinit : (initCompile defaultCState k).obs = defaultCState.obs := rfl
  rw [hinit] at hobs
  have hid : st.id = (scopeRefs k.body).any isAbsPosFlat := by
    have : st.obs.id = (scopeRefs k.body).any isAbsPosFlat := by
      rw [hobs, foldl_updObs_flag (·.id) isAbsPosFlat flag_step_id]
      rfl
    exact this
  have hliidx : st.local_invocation_index
      = (scopeRefs k.body).any isUnitPosFlat := by
    have : st.obs.local_invocation_index
        = (scopeRefs k.body).any isUnitPosFlat := by
      rw [hobs, foldl_updObs_flag (·.local_invocation_index) isUnitPosFlat
        flag_step_liidx]
      rfl
    exact this
  have hliid : st.local_invocation_id
      = (scopeRefs k.body).any isUnitPosAxis := by
    have : st.obs.local_invocation_id
        = (scopeRefs k.body).any isUnitPosAxis := by
      rw [hobs, foldl_updObs_flag (·.local_invocation_id) isUnitPosAxis
        flag_step_liid]
      rfl
    exact this
  have hwid : st.workgroup_id = (scopeRefs k.body).any isCubePosAxis := by
    have : st.obs.workgroup_id = (scopeRefs k.body).any isCubePosAxis := by
      rw [hobs, foldl_updObs_flag (·.workgroup_id) isCubePosAxis
        flag_step_wid]
      rfl
    exact this
  have hgii : st.global_invocation_id
      = (scopeRefs k.body).any isAbsPosAxis := by
    have : st.obs.global_invocation_id
        = (scopeRefs k.body).any isAbsPosAxis := by
      rw [hobs, foldl_updObs_flag (·.global_invocation_id) isAbsPosAxis
        flag_step_gii]
      rfl
    exact this
  have hnw : st.num_workgroups = (scopeRefs k.body).any isCubeCountAxis := by
    have : st.obs.num_workgroups
        = (scopeRefs k.body).any isCubeCountAxis := by
      rw [hobs, foldl_updObs_flag (·.num_workgroups) isCubeCountAxis
        flag_step_nw]
      rfl
    exact this
  have hwidna : st.workgroup_id_no_axis
      = (scopeRefs k.body).any isCubePosFlat := by
    have : st.obs.workgroup_id_no_axis
        = (scopeRefs k.body).any isCubePosFlat := by
      rw [hobs, foldl_updObs_flag (·.workgroup_id_no_axis) isCubePosFlat
        flag_step_widna]
      rfl
    exact this
  have hwsna : st.workgroup_size_no_axis
      = (scopeRefs k.body).any isCubeDimFlat := by
    have : st.obs.workgroup_size_no_axis
        = (scopeRefs k.body).any isCubeDimFlat := by
      rw [hobs, foldl_updObs_flag (·.workgroup_size_no_axis) isCubeDimFlat
        flag_step_wsna]
      rfl
    exact this
  have hnwna : st.num_workgroup_no_axis
      = (scopeRefs k.body).any isCubeCountFlat := by
    have : st.obs.num_workgroup_no_axis
        = (scopeRefs k.body).any isCubeCountFlat := by
      rw [hobs, foldl_updObs_flag (·.num_workgroup_no_axis) isCubeCountFlat
        flag_step_nwna]
      rfl
    exact this
  have hsgs : st.subgroup_size = (scopeRefs k.body).any isSubcubeDimFlat := by
    have : st.obs.subgroup_size
        = (scopeRefs k.body).any isSubcubeDimFlat := by
      rw [hobs, foldl_updObs_flag (·.subgroup_size) isSubcubeDimFlat
        flag_step_sgs]
      rfl
    exact this
  obtain ⟨h1, h2, h3, h4, h5, h6, h7, h8, h9, h10, _⟩ := hf
  refine ⟨?_, ?_, ?_, ?_, ?_, ?_, ?_, ?_, ?_, ?_⟩
  · rw [h1, hgii, hid, list_any_or]
  · rw [h4, hid, hnw, hnwna, hwidna, list_any_or, list_any_or, list_any_or]
    cases ha : (scopeRefs k.body).any isCubeCountAxis <;>
      cases hb : (scopeRefs k.body).any isCubeCountFlat <;>
      cases hc : (scopeRefs k.body).any isCubePosFlat <;>
      cases hd : (scopeRefs k.body).any isAbsPosFlat <;> rfl
  · rw [h5, hwid, hwidna, list_any_or]
  · rw [h2, hliidx]
  · rw [h3, hliid]
  · rw [h6, hsgs]
  · rw [h7, hid]
  · rw [h8, hnwna]
  · rw [h9, hwidna]
  · rw [h10, hwsna]

/-- A kernel whose body adds the per-axis absolute positions `x` and `y`
into a local (the spec's builtin-propagation scenario). -/
def kernelAbsXY : KernelDefinition :=
  { inputs := []
    outputs := [⟨.storage, .readWrite, ⟨.uint .u32, none⟩, none, false⟩]
    named := []
    cube_dim := ⟨16, 16, 1⟩
    body := .mk [] [⟨.localVar 0 0, ⟨.uint .u32, none⟩⟩]
      [(.operator (.add ⟨⟨.builtin .absolutePosX, ⟨.uint .u32, none⟩⟩,
          ⟨.builtin .absolutePosY, ⟨.uint .u32, none⟩⟩⟩),
        some ⟨.localVar 0 0, ⟨.uint .u32, none⟩⟩)] }

/-- Witness for C4: on `kernelAbsXY`, `global_invocation_id` is advertised
and `num_workgroups` is not. -/
theorem builtin_flag_advertisement_witness :
    (compileKernel kernelAbsXY .checked).map
        (fun s => (s.global_invocation_id, s.num_workgroups))
      = .ok (true, false) := by
  obtain ⟨s, hs⟩ : ∃ s, compileKernel kernelAbsXY .checked = .ok s := ⟨_, rfl⟩
  have hflags := builtin_flag_advertisement kernelAbsXY .checked s hs
  rw [hs]
  simp only [Except.map, Except.ok.injEq, Prod.mk.injEq]
  rw [hflags.1, hflags.2.1]
  exact ⟨by rfl, by rfl⟩

/-! ## C5: declaration lists -/

/-- Push-if-absent keyed by an integer key: the shape of the source's
`if !list.iter().any(|s| s.index == id) { list.push(...) }`. -/
def keyPush {α : Type _} (f : α → Nat) (acc : List α) (e : α) : List α :=
  if acc.any (fun d => f d = f e) then acc else acc ++ [e]

theorem keyPush_mem {α : Type _} (f : α → Nat) {acc : List α} {d : α}
    (e : α) (h : d ∈ acc) : d ∈ keyPush f acc e := by
  unfold keyPush
  split
  · exact h
  · exact List.mem_append_left _ h

theorem foldl_keyPush_mem {α : Type _} (f : α → Nat) :
    ∀ (es : List α) {acc : List α} {d : α}, d ∈ acc →
      d ∈ es.foldl (keyPush f) acc := by
  intro es
  induction es with
  | nil => intro acc d h; exact h
  | cons e rest ihe =>
    intro acc d h
    exact ihe (keyPush_mem f e h)

theorem foldl_keyPush_covers {α : Type _} (f : α → Nat) :
    ∀ (es : List α) (acc : List α) (e : α), e ∈ es →
      ∃ d ∈ es.foldl (keyPush f) acc, f d = f e := by
  intro es
  induction es with
  | nil => intro acc e h; simp at h
  | cons e' rest ihe =>
    intro acc e h
    rcases List.mem_cons.mp h with rfl | hmem
    · by_cases hany : acc.any (fun d => f d = f e)
      · simp only [List.any_eq_true, decide_eq_true_eq] at hany
        obtain ⟨d, hd, hfd⟩ := hany
        refine ⟨d, ?_, hfd⟩
        refine foldl_keyPush_mem f rest ?_
        unfold keyPush
        split
        · exact hd
        · exact List.mem_append_left _ hd
      · refine ⟨e, ?_, rfl⟩
        refine foldl_keyPush_mem f rest ?_
        unfold keyPush
        split
        · rename_i hc
          exact absurd hc hany
        · exact List.mem_append_right _ (by simp)
    · exact ihe (keyPush f acc e') e hmem

theorem foldl_keyPush_nodup {α : Type _} (f : α → Nat) :
    ∀ (es : List α) (acc : List α), (acc.map f).Nodup →
      ((es.foldl (keyPush f) acc).map f).Nodup := by
  intro es
  induction es with
  | nil => intro acc h; exact h
  | cons e rest ihe =>
    intro acc h
    refine ihe (keyPush f acc e) ?_
    unfold keyPush
    split
    · exact h
    · rename_i hc
      rw [List.map_append]
      simp only [List.map_cons, List.map_nil]
      rw [List.nodup_append]
      refine ⟨h, List.nodup_singleton _, ?_⟩
      intro a ha
      simp only [List.mem_singleton]
      intro hae
      rw [List.mem_map] at ha
      obtain ⟨x, hx, hfx⟩ := ha
      simp only [List.any_eq_true, decide_eq_true_eq] at hc
      exact hc ⟨x, hx, by rw [hfx, hae]⟩

theorem foldl_keyPush_first {α : Type _} (f : α → Nat) :
    ∀ (es : List α) (acc : List α) (d : α), d ∈ es.foldl (keyPush f) acc →
      d ∈ acc
      ∨ ((∀ x ∈ acc, f x ≠ f d)
          ∧ es.find? (fun e => f e == f d) = some d) := by
  intro es
  induction es with
  | nil =>
    intro acc d h
    exact Or.inl h
  | cons e rest ihe =>
    intro acc d h
    rcases ihe (keyPush f acc e) d h with hmem | ⟨hnot, hfind⟩
    · unfold keyPush at hmem
      split at hmem
      · exact Or.inl hmem
      · rename_i hc
        rcases List.mem_append.mp hmem with hacc | he
        · exact Or.inl hacc
        · simp only [List.mem_singleton] at he
          subst he
          refine Or.inr ⟨?_, ?_⟩
          · intro x hx hfx
            simp only [List.any_eq_true, decide_eq_true_eq] at hc
            exact hc ⟨x, hx, hfx⟩
          · rw [List.find?_cons_of_pos _ (by simp)]
    · have hne : f e ≠ f d := by
        intro hfe
        refine hnot e ?_ hfe
        unfold keyPush
        split
        · rename_i hc
          simp only [List.any_eq_true, decide_eq_true_eq] at hc
          obtain ⟨x, hx, hfx⟩ := hc
          exact absurd (hfx.trans hfe) (hnot x (keyPush_mem f e hx))
        · exact List.mem_append_right _ (by simp)
      refine Or.inr ⟨?_, ?_⟩
      · intro x hx
        refine hnot x ?_
        exact keyPush_mem f e hx
      · rw [List.find?_cons_of_neg _ (by simpa using hne), hfind]

/-- The shared-memory declaration a reference would record (`none` when the
variable is not a shared memory or its item does not compile). -/
def sharedEntry (v : Variable) : Option SharedMemoryDecl :=
  match v.kind with
  | .sharedMemory id length =>
    match compileItem v.item with
    | .ok it => some ⟨id, it, length⟩
    | .error _ => none
  | _ => none

/-- The local-array declaration a reference would record. -/
def laEntry (v : Variable) : Option LocalArrayDecl :=
  match v.kind with
  | .localArray id depth length =>
    match compileItem v.item with
    | .ok it => some ⟨id, it, depth, length⟩
    | .error _ => none
  | _ => none

theorem shared_step (o : Obs) (v : Variable) :
    (updObs o v).shared_memories
      = match sharedEntry v with
        | none => o.shared_memories
        | some e => keyPush (·.index) o.shared_memories e := by
  obtain ⟨kind, item⟩ := v
  cases kind <;> simp [updObs, sharedEntry]
  case sharedMemory id length =>
    cases hci : compileItem item <;> simp [hci, keyPush]
    split <;> simp_all
  case localArray id depth length =>
    cases hci : compileItem item <;> simp [hci]
    split <;> rfl
  case builtin b => cases b <;> rfl

theorem local_step (o : Obs) (v : Variable) :
    (updObs o v).local_arrays
      = match laEntry v with
        | none => o.local_arrays
        | some e => keyPush (·.index) o.local_arrays e := by
  obtain ⟨kind, item⟩ := v
  cases kind <;> simp [updObs, laEntry]
  case sharedMemory id length =>
    cases hci : compileItem item <;> simp [hci]
    split <;> rfl
  case localArray id depth length =>
    cases hci : compileItem item <;> simp [hci, keyPush]
    split <;> simp_all
  case builtin b => cases b <;> rfl

theorem foldl_updObs_shared (l : List Variable) :
    ∀ (o : Obs), (l.foldl updObs o).shared_memories
      = (l.filterMap sharedEntry).foldl (keyPush (·.index))
          o.shared_memories := by
  induction l with
  | nil => intro o; rfl
  | cons v rest ihl =>
    intro o
    simp only [List.foldl_cons, List.filterMap_cons]
    cases he : sharedEntry v
    · simp only []
      rw [ihl, shared_step, he]
    · simp only [List.foldl_cons]
      rw [ihl, shared_step, he]

theorem foldl_updObs_local (l : List Variable) :
    ∀ (o : Obs), (l.foldl updObs o).local_arrays
      = (l.filterMap laEntry).foldl (keyPush (·.index)) o.local_arrays := by
  induction l with
  | nil => intro o; rfl
  | cons v rest ihl =>
    intro o
    simp only [List.foldl_cons, List.filterMap_cons]
    cases he : laEntry v
    · simp only []
      rw [ihl, local_step, he]
    · simp only [List.foldl_cons]
      rw [ihl, local_step, he]

/-- Whether a lowered variable is a `Slice`. -/
def WVar.isSliceVar : WVar → Bool
  | .slice _ _ _ => true
  | _ => false

mutual

/-- No `DeclareVariable` instruction in the tree declares a `Slice`. -/
def noSliceDeclInstr : Instr → Bool
  | .declareVariable w => ! w.isSliceVar
  | .ifCond _ instructions => noSliceDeclList instructions
  | .ifElse _ instructionsIf instructionsElse =>
    noSliceDeclList instructionsIf && noSliceDeclList instructionsElse
  | .switch _ instructionsDefault cases =>
    noSliceDeclList instructionsDefault && noSliceDeclCases cases
  | .rangeLoop _ _ _ _ _ instructions => noSliceDeclList instructions
  | .loop instructions => noSliceDeclList instructions
  | _ => true

def noSliceDeclList : List Instr → Bool
  | [] => true
  | i :: rest => noSliceDeclInstr i && noSliceDeclList rest

def noSliceDeclCases : List (WVar × List Instr) → Bool
  | [] => true
  | (_, is) :: rest => noSliceDeclList is && noSliceDeclCases rest

end

theorem noSliceDeclList_append (a b : List Instr) :
    noSliceDeclList (a ++ b) = (noSliceDeclList a && noSliceDeclList b) := by
  induction a with
  | nil => rfl
  | cons i rest iha =>
    simp only [List.cons_append, noSliceDeclList, List.append_eq, iha,
      Bool.and_assoc]

theorem cv1_shape {st st' : CState} {a : Variable} {k : WVar → Instr}
    {i : Instr} (h : cv1 st a k = .ok (st', i)) : ∃ wa, i = k wa := by
  unfold cv1 at h
  cases hca : compileVariable st a
  · rw [hca] at h
    exact absurd h (by simp)
  · rename_i p
    obtain ⟨st1, wa⟩ := p
    rw [hca] at h
    simp only [Except.ok.injEq, Prod.mk.injEq] at h
    exact ⟨wa, h.2.symm⟩

theorem cv2_shape {st st' : CState} {a b : Variable}
    {k : WVar → WVar → Instr} {i : Instr}
    (h : cv2 st a b k = .ok (st', i)) : ∃ wa wb, i = k wa wb := by
  unfold cv2 at h
  cases hca : compileVariable st a
  · rw [hca] at h
    exact absurd h (by simp)
  · rename_i p
    obtain ⟨st1, wa⟩ := p
    rw [hca] at h
    simp only [] at h
    obtain ⟨wb, hb⟩ := cv1_shape h
    exact ⟨wa, wb, hb⟩

theorem cv3_shape {st st' : CState} {a b c : Variable}
    {k : WVar → WVar → WVar → Instr} {i : Instr}
    (h : cv3 st a b c k = .ok (st', i)) : ∃ wa wb wc, i = k wa wb wc := by
  unfold cv3 at h
  cases hca : compileVariable st a
  · rw [hca] at h
    exact absurd h (by simp)
  · rename_i p
    obtain ⟨st1, wa⟩ := p
    rw [hca] at h
    simp only [] at h
    obtain ⟨wb, wc, hb⟩ := cv2_shape h
    exact ⟨wa, wb, wc, hb⟩

theorem cv4_shape {st st' : CState} {a b c d : Variable}
    {k : WVar → WVar → WVar → WVar → Instr} {i : Instr}
    (h : cv4 st a b c d k = .ok (st', i)) :
    ∃ wa wb wc wd, i = k wa wb wc wd := by
  unfold cv4 at h
  cases hca : compileVariable st a
  · rw [hca] at h
    exact absurd h (by simp)
  · rename_i p
    obtain ⟨st1, wa⟩ := p
    rw [hca] at h
    simp only [] at h
    obtain ⟨wb, wc, wd, hb⟩ := cv3_shape h
    exact ⟨wa, wb, wc, wd, hb⟩

theorem compileInstr_noSlice {st st' : CState} {value : Operator}
    {out : Option Variable} {i : Instr}
    (h : compileInstr st value out = .ok (st', i)) :
    noSliceDeclInstr i = true := by
  cases out with
  | none => exact absurd h (by simp [compileInstr])
  | some o =>
    cases value <;>
      first
        | (obtain ⟨wa, wb, rfl⟩ := cv2_shape h; rfl)
        | (obtain ⟨wa, wb, wc, rfl⟩ := cv3_shape h; rfl)
        | (obtain ⟨wa, wb, wc, wd, rfl⟩ := cv4_shape h; rfl)
        | skip
    case initLine op =>
      simp only [compileInstr] at h
      cases hl : cvList st op.inputs
      · rw [hl] at h
        exact absurd h (by simp)
      · rename_i p
        obtain ⟨st1, ws⟩ := p
        rw [hl] at h
        simp only [] at h
        obtain ⟨wa, rfl⟩ := cv1_shape h
        rfl

theorem compileAtomic_noSlice {st st' : CState} {atomic : AtomicOp}
    {out : Option Variable} {i : Instr}
    (h : compileAtomic st atomic out = .ok (st', i)) :
    noSliceDeclInstr i = true := by
  cases out with
  | none => exact absurd h (by simp [compileAtomic])
  | some o =>
    cases atomic <;>
      first
        | (obtain ⟨wa, wb, rfl⟩ := cv2_shape h; rfl)
        | (obtain ⟨wa, wb, wc, rfl⟩ := cv3_shape h; rfl)
        | (obtain ⟨wa, wb, wc, wd, rfl⟩ := cv4_shape h; rfl)

theorem compileSubgroup_noSlice {st st' : CState} {subgroup : Subcube}
    {out : Option Variable} {i : Instr}
    (h : compileSubgroup st subgroup out = .ok (st', i)) :
    noSliceDeclInstr i = true := by
  cases out with
  | none => exact absurd h (by simp [compileSubgroup])
  | some o =>
    cases subgroup <;>
      first
        | (obtain ⟨wa, rfl⟩ := cv1_shape h; rfl)
        | (obtain ⟨wa, wb, rfl⟩ := cv2_shape h; rfl)
        | (obtain ⟨wa, wb, wc, rfl⟩ := cv3_shape h; rfl)

theorem compileMetadata_noSlice {st st' : CState} {metadata : MetaOp}
    {out : Option Variable} {i : Instr}
    (h : compileMetadata st metadata out = .ok (st', i)) :
    noSliceDeclInstr i = true := by
  cases out with
  | none => exact absurd h (by simp [compileMetadata])
  | some o =>
    cases metadata with
    | rank var =>
      simp only [compileMetadata] at h
      cases hm : extMetaPos st var
      · rw [hm] at h
        exact absurd h (by simp)
      · rw [hm] at h
        simp only [] at h
        obtain ⟨wa, wb, rfl⟩ := cv2_shape h
        rfl
    | stride dim var =>
      simp only [compileMetadata] at h
      cases hm : extMetaPos st var
      · rw [hm] at h
        exact absurd h (by simp)
      · rw [hm] at h
        simp only [] at h
        obtain ⟨wa, wb, wc, rfl⟩ := cv3_shape h
        rfl
    | shape dim var =>
      simp only [compileMetadata] at h
      cases hm : extMetaPos st var
      · rw [hm] at h
        exact absurd h (by simp)
      · rw [hm] at h
        simp only [] at h
        obtain ⟨wa, wb, wc, rfl⟩ := cv3_shape h
        rfl
    | length var =>
      obtain ⟨kind, item⟩ := var
      cases kind <;>
        first
          | (obtain ⟨wa, wb, rfl⟩ := cv2_shape h; rfl)
          | (simp only [compileMetadata] at h
             obtain ⟨wa, wb, rfl⟩ := cv2_shape h
             rfl)
    | bufferLength var =>
      obtain ⟨kind, item⟩ := var
      cases kind <;>
        first
          | (obtain ⟨wa, wb, rfl⟩ := cv2_shape h; rfl)
          | (simp only [compileMetadata] at h
             obtain ⟨wa, wb, rfl⟩ := cv2_shape h
             rfl)

theorem compileVariable_notSlice {st st' : CState} {v : Variable} {w : WVar}
    (hns : v.isSliceKind = false) (h : compileVariable st v = .ok (st', w)) :
    w.isSliceVar = false := by
  obtain ⟨kind, item⟩ := v
  cases kind
  case slice id depth => simp [Variable.isSliceKind] at hns
  case globalScalar id =>
    cases hce : compileElem item.elem <;> simp [compileVariable, hce] at h
    rw [← h.2]
    rfl
  case constantScalar c =>
    cases hce : compileElem c.elem <;> simp [compileVariable, hce] at h
    rw [← h.2]
    rfl
  case sharedMemory id length =>
    cases hci : compileItem item
    · simp [compileVariable, hci] at h
    · simp only [compileVariable, hci] at h
      split at h <;>
        (simp only [Except.ok.injEq, Prod.mk.injEq] at h
         rw [← h.2]
         rfl)
  case localArray id depth length =>
    cases hci : compileItem item
    · simp [compileVariable, hci] at h
    · simp only [compileVariable, hci] at h
      split at h <;>
        (simp only [Except.ok.injEq, Prod.mk.injEq] at h
         rw [← h.2]
         rfl)
  case builtin b =>
    cases b <;> simp [compileVariable] at h <;> (rw [← h.2]; rfl)
  case matrix => simp [compileVariable] at h
  all_goals
    (cases hci : compileItem item <;> simp [compileVariable, hci] at h
     rw [← h.2]
     rfl)

theorem compileDecls_noSlice {vs : List Variable} :
    ∀ {st st' : CState} {is : List Instr},
    compileDecls st vs = .ok (st', is) → noSliceDeclList is = true := by
  induction vs with
  | nil =>
    intro st st' is h
    simp only [compileDecls, Except.ok.injEq, Prod.mk.injEq] at h
    rw [← h.2]
    rfl
  | cons v rest ih =>
    intro st st' is h
    simp only [compileDecls] at h
    by_cases hsk : v.isSliceKind
    · rw [if_pos hsk] at h
      exact ih h
    · rw [if_neg hsk] at h
      cases hcv : compileVariable st v
      · rw [hcv] at h
        exact absurd h (by simp)
      · rename_i p
        obtain ⟨st1, w⟩ := p
        rw [hcv] at h
        simp only [] at h
        cases hrest : compileDecls st1 rest
        · rw [hrest] at h
          exact absurd h (by simp)
        · rename_i q
          obtain ⟨st2, is2⟩ := q
          rw [hrest] at h
          simp only [Except.ok.injEq, Prod.mk.injEq] at h
          rw [← h.2]
          simp only [noSliceDeclList, noSliceDeclInstr, Bool.and_eq_true]
          refine ⟨?_, ih hrest⟩
          rw [compileVariable_notSlice (Bool.not_eq_true _ ▸ hsk) hcv]
          rfl

/-- No lowered instruction tree ever contains a `DeclareVariable` of a
`Slice` variable. -/
theorem noSliceMaster : ∀ n : Nat,
    (∀ (s : Scope) (st st' : CState) (r : List Instr), sizeOf s ≤ n →
      compileScope st s = .ok (st', r) → noSliceDeclList r = true)
    ∧ (∀ (ops : List (Operation × Option Variable)) (st st' : CState)
        (r : List Instr), sizeOf ops ≤ n →
      compileOps st ops = .ok (st', r) → noSliceDeclList r = true)
    ∧ (∀ (op : Operation) (out : Option Variable) (st st' : CState)
        (r : Instr), sizeOf op ≤ n →
      compileOperation st op out = .ok (st', r) → noSliceDeclInstr r = true)
    ∧ (∀ (b : Branch) (st st' : CState) (r : Instr), sizeOf b ≤ n →
      compileBranch st b = .ok (st', r) → noSliceDeclInstr r = true)
    ∧ (∀ (cs : List (Variable × Scope)) (st st' : CState)
        (r : List (WVar × List Instr)), sizeOf cs ≤ n →
      compileCases st cs = .ok (st', r) → noSliceDeclCases r = true) := by
  intro n
  induction n with
  | zero =>
    refine ⟨?_, ?_, ?_, ?_, ?_⟩
    · intro s st st' r hs
      have := scope_one_le_sizeOf s
      omega
    · intro ops st st' r hs h
      cases ops with
      | nil =>
        simp only [compileOps, Except.ok.injEq, Prod.mk.injEq] at h
        rw [← h.2]
        rfl
      | cons p rest => simp_arith at hs
    · intro op out st st' r hs
      have := operation_one_le_sizeOf op
      omega
    · intro b st st' r hs
      have := branch_one_le_sizeOf b
      omega
    · intro cs st st' r hs h
      cases cs with
      | nil =>
        simp only [compileCases, Except.ok.injEq, Prod.mk.injEq] at h
        rw [← h.2]
        rfl
      | cons p rest => simp_arith at hs
  | succ n ih =>
    obtain ⟨ihS, ihO, ihP, ihB, ihC⟩ := ih
    refine ⟨?_, ?_, ?_, ?_, ?_⟩
    · -- compileScope
      intro s st st' r hs h
      obtain ⟨cas, vars, ops⟩ := s
      have hops : sizeOf ops ≤ n := by
        simp_arith at hs
        omega
      simp only [compileScope] at h
      cases hca : compileConstArrs st cas
      · rw [hca] at h
        exact absurd h (by simp)
      · rename_i p
        obtain ⟨st1, arrs⟩ := p
        rw [hca] at h
        simp only [] at h
        cases hd : compileDecls
            { st1 with const_arrays := st1.const_arrays ++ arrs } vars
        · rw [hd] at h
          exact absurd h (by simp)
        · rename_i q
          obtain ⟨st3, decls⟩ := q
          rw [hd] at h
          simp only [] at h
          cases hop : compileOps st3 ops
          · rw [hop] at h
            exact absurd h (by simp)
          · rename_i q2
            obtain ⟨st4, instrs⟩ := q2
            rw [hop] at h
            simp only [Except.ok.injEq, Prod.mk.injEq] at h
            rw [← h.2]
            rw [noSliceDeclList_append, compileDecls_noSlice hd,
              ihO ops st3 st4 instrs hops hop]
            rfl
    · -- compileOps
      intro ops st st' r hs h
      cases ops with
      | nil =>
        simp only [compileOps, Except.ok.injEq, Prod.mk.injEq] at h
        rw [← h.2]
        rfl
      | cons p rest =>
        obtain ⟨op, out⟩ := p
        have hsz : sizeOf op ≤ n ∧ sizeOf rest ≤ n := by
          simp_arith at hs
          omega
        simp only [compileOps] at h
        cases hco : compileOperation st op out
        · rw [hco] at h
          exact absurd h (by simp)
        · rename_i p2
          obtain ⟨st1, instr⟩ := p2
          rw [hco] at h
          simp only [] at h
          cases hrest : compileOps st1 rest
          · rw [hrest] at h
            exact absurd h (by simp)
          · rename_i q
            obtain ⟨st2, instrs⟩ := q
            rw [hrest] at h
            simp only [Except.ok.injEq, Prod.mk.injEq] at h
            rw [← h.2]
            simp only [noSliceDeclList, Bool.and_eq_true]
            exact ⟨ihP op out st st1 instr hsz.1 hco,
              ihO rest st1 st2 instrs hsz.2 hrest⟩
    · -- compileOperation
      intro op out st st' r hs h
      cases op with
      | copy vin =>
        simp only [compileOperation] at h
        cases hcv : compileVariable st vin
        · rw [hcv] at h
          exact absurd h (by simp)
        · rename_i p
          obtain ⟨st1, wv⟩ := p
          rw [hcv] at h
          simp only [] at h
          cases out with
          | none => exact absurd h (by simp)
          | some o =>
            simp only [] at h
            cases hco : compileVariable st1 o
            · rw [hco] at h
              exact absurd h (by simp)
            · rename_i q
              obtain ⟨st2, wo⟩ := q
              rw [hco] at h
              simp only [Except.ok.injEq, Prod.mk.injEq] at h
              rw [← h.2]
              rfl
      | operator o => exact compileInstr_noSlice h
      | atomic o => exact compileAtomic_noSlice h
      | metadataOp m => exact compileMetadata_noSlice h
      | branch b =>
        have hb : sizeOf b ≤ n := by
          simp_arith at hs
          omega
        exact ihB b st st' r hb h
      | synchronization s =>
        cases s <;>
          (simp only [compileOperation, Except.ok.injEq, Prod.mk.injEq] at h
           rw [← h.2]
           rfl)
      | subcube s => exact compileSubgroup_noSlice h
      | coopMma => exact absurd h (by simp [compileOperation])
    · -- compileBranch
      intro b st st' r hs h
      cases b with
      | ifCond cond scope =>
        have hsc : sizeOf scope ≤ n := by
          simp_arith at hs
          omega
        simp only [compileBranch] at h
        cases hcv : compileVariable st cond
        · rw [hcv] at h
          exact absurd h (by simp)
        · rename_i p
          obtain ⟨st1, wcond⟩ := p
          rw [hcv] at h
          simp only [] at h
          cases hsc2 : compileScope st1 scope
          · rw [hsc2] at h
            exact absurd h (by simp)
          · rename_i q
            obtain ⟨st2, instrs⟩ := q
            rw [hsc2] at h
            simp only [Except.ok.injEq, Prod.mk.injEq] at h
            rw [← h.2]
            simp only [noSliceDeclInstr]
            exact ihS scope st1 st2 instrs hsc hsc2
      | ifElse cond sIf sElse =>
        have hsz : sizeOf sIf ≤ n ∧ sizeOf sElse ≤ n := by
          simp_arith at hs
          omega
        simp only [compileBranch] at h
        cases hcv : compileVariable st cond
        · rw [hcv] at h
          exact absurd h (by simp)
        · rename_i p
          obtain ⟨st1, wcond⟩ := p
          rw [hcv] at h
          simp only [] at h
          cases h1 : compileScope st1 sIf
          · rw [h1] at h
            exact absurd h (by simp)
          · rename_i q
            obtain ⟨st2, iIf⟩ := q
            rw [h1] at h
            simp only [] at h
            cases h2 : compileScope st2 sElse
            · rw [h2] at h
              exact absurd h (by simp)
            · rename_i q2
              obtain ⟨st3, iElse⟩ := q2
              rw [h2] at h
              simp only [Except.ok.injEq, Prod.mk.injEq] at h
              rw [← h.2]
              simp only [noSliceDeclInstr, Bool.and_eq_true]
              exact ⟨ihS sIf st1 st2 iIf hsz.1 h1,
                ihS sElse st2 st3 iElse hsz.2 h2⟩
      | switch value sDefault cases_ =>
        have hsz : sizeOf sDefault ≤ n ∧ sizeOf cases_ ≤ n := by
          simp_arith at hs
          omega
        simp only [compileBranch] at h
        cases hcv : compileVariable st value
        · rw [hcv] at h
          exact absurd h (by simp)
        · rename_i p
          obtain ⟨st1, wvalue⟩ := p
          rw [hcv] at h
          simp only [] at h
          cases h1 : compileScope st1 sDefault
          · rw [h1] at h
            exact absurd h (by simp)
          · rename_i q
            obtain ⟨st2, iDefault⟩ := q
            rw [h1] at h
            simp only [] at h
            cases h2 : compileCases st2 cases_
            · rw [h2] at h
              exact absurd h (by simp)
            · rename_i q2
              obtain ⟨st3, wcases⟩ := q2
              rw [h2] at h
              simp only [Except.ok.injEq, Prod.mk.injEq] at h
              rw [← h.2]
              simp only [noSliceDeclInstr, Bool.and_eq_true]
              exact ⟨ihS sDefault st1 st2 iDefault hsz.1 h1,
                ihC cases_ st2 st3 wcases hsz.2 h2⟩
      | ret =>
        simp only [compileBranch, Except.ok.injEq, Prod.mk.injEq] at h
        rw [← h.2]
        rfl
      | brk =>
        simp only [compileBranch, Except.ok.injEq, Prod.mk.injEq] at h
        rw [← h.2]
        rfl
      | rangeLoop i start stop step inclusive scope =>
        have hsc : sizeOf scope ≤ n := by
          simp_arith at hs
          omega
        simp only [compileBranch] at h
        cases hi : compileVariable st i
        · rw [hi] at h
          exact absurd h (by simp)
        · rename_i p
          obtain ⟨st1, wi⟩ := p
          rw [hi] at h
          simp only [] at h
          cases hst : compileVariable st1 start
          · rw [hst] at h
            exact absurd h (by simp)
          · rename_i q
            obtain ⟨st2, wstart⟩ := q
            rw [hst] at h
            simp only [] at h
            cases hsp : compileVariable st2 stop
            · rw [hsp] at h
              exact absurd h (by simp)
            · rename_i q2
              obtain ⟨st3, wstop⟩ := q2
              rw [hsp] at h
              simp only [] at h
              cases step with
              | none =>
                simp only [] at h
                cases hscope : compileScope st3 scope
                · rw [hscope] at h
                  exact absurd h (by simp)
                · rename_i q3
                  obtain ⟨st4, instrs⟩ := q3
                  rw [hscope] at h
                  simp only [Except.ok.injEq, Prod.mk.injEq] at h
                  rw [← h.2]
                  simp only [noSliceDeclInstr]
                  exact ihS scope st3 st4 instrs hsc hscope
              | some stepVar =>
                simp only [] at h
                cases hsv : compileVariable st3 stepVar
                · rw [hsv] at h
                  exact absurd h (by simp)
                · rename_i q3
                  obtain ⟨st4, wstep⟩ := q3
                  rw [hsv] at h
                  simp only [] at h
                  cases hscope : compileScope st4 scope
                  · rw [hscope] at h
                    exact absurd h (by simp)
                  · rename_i q4
                    obtain ⟨st5, instrs⟩ := q4
                    rw [hscope] at h
                    simp only [Except.ok.injEq, Prod.mk.injEq] at h
                    rw [← h.2]
                    simp only [noSliceDeclInstr]
                    exact ihS scope st4 st5 instrs hsc hscope
      | loop scope =>
        have hsc : sizeOf scope ≤ n := by
          simp_arith at hs
          omega
        simp only [compileBranch] at h
        cases hscope : compileScope st scope
        · rw [hscope] at h
          exact absurd h (by simp)
        · rename_i q
          obtain ⟨st1, instrs⟩ := q
          rw [hscope] at h
          simp only [Except.ok.injEq, Prod.mk.injEq] at h
          rw [← h.2]
          simp only [noSliceDeclInstr]
          exact ihS scope st st1 instrs hsc hscope
    · -- compileCases
      intro cs st st' r hs h
      cases cs with
      | nil =>
        simp only [compileCases, Except.ok.injEq, Prod.mk.injEq] at h
        rw [← h.2]
        rfl
      | cons p rest =>
        obtain ⟨val, scope⟩ := p
        have hsz : sizeOf scope ≤ n ∧ sizeOf rest ≤ n := by
          simp_arith at hs
          omega
        simp only [compileCases] at h
        cases hcv : compileVariable st val
        · rw [hcv] at h
          exact absurd h (by simp)
        · rename_i p2
          obtain ⟨st1, wval⟩ := p2
          rw [hcv] at h
          simp only [] at h
          cases h1 : compileScope st1 scope
          · rw [h1] at h
            exact absurd h (by simp)
          · rename_i q
            obtain ⟨st2, instrs⟩ := q
            rw [h1] at h
            simp only [] at h
            cases h2 : compileCases st2 rest
            · rw [h2] at h
              exact absurd h (by simp)
            · rename_i q2
              obtain ⟨st3, ws⟩ := q2
              rw [h2] at h
              simp only [Except.ok.injEq, Prod.mk.injEq] at h
              rw [← h.2]
              simp only [noSliceDeclCases, Bool.and_eq_true]
              exact ⟨ihS scope st1 st2 instrs hsz.1 h1,
                ihC rest st2 st3 ws hsz.2 h2⟩

/-- C5.  In a compiled shader, the shared-memory and local-array declaration
lists are exactly the first-sighting dedup-by-id fold over the body's
reference trace: each referenced id appears exactly once (the index lists
are duplicate-free and every reference's id is covered), the recorded entry
for an id is the first reference encountered with that id (first-encounter
order, first sighting kept), and no `Slice` variable ever appears as a
declaration anywhere in the lowered instructions. -/
theorem shared_local_declaration_invariants (k : KernelDefinition)
    (mode : ExecutionMode) (shader : ComputeShader)
    (h : compileKernel k mode = .ok shader) :
    shader.shared_memories
        = ((scopeRefs k.body).filterMap sharedEntry).foldl
            (keyPush (·.index)) []
    ∧ shader.local_arrays
        = ((scopeRefs k.body).filterMap laEntry).foldl (keyPush (·.index)) []
    ∧ (shader.shared_memories.map (·.index)).Nodup
    ∧ (shader.local_arrays.map (·.index)).Nodup
    ∧ (∀ e ∈ (scopeRefs k.body).filterMap sharedEntry,
        ∃ d ∈ shader.shared_memories, d.index = e.index)
    ∧ (∀ e ∈ (scopeRefs k.body).filterMap laEntry,
        ∃ d ∈ shader.local_arrays, d.index = e.index)
    ∧ (∀ d ∈ shader.shared_memories,
        ((scopeRefs k.body).filterMap sharedEntry).find?
          (fun e => e.index == d.index) = some d)
    ∧ (∀ d ∈ shader.local_arrays,
        ((scopeRefs k.body).filterMap laEntry).find?
          (fun e => e.index == d.index) = some d)
    ∧ noSliceDeclList shader.body.instructions = true := by
  obtain ⟨st, instrs, hsc, hf⟩ := compileShader_ok h
  obtain ⟨_, _, _, _, _, _, hbody, _, _, _, hshm, hla, _⟩ := hf
  have hobs : st.obs
      = (scopeRefs k.body).foldl updObs (initCompile defaultCState k).obs :=
    (masterObs (sizeOf k.body)).1 k.body _ st instrs le_rfl hsc
  have hsm : shader.shared_memories
      = ((scopeRefs k.body).filterMap sharedEntry).foldl
          (keyPush (·.index)) [] := by
    rw [hshm]
    have : st.shared_memories = st.obs.shared_memories := rfl
    rw [this, hobs, foldl_updObs_shared]
    rfl
  have hlm : shader.local_arrays
      = ((scopeRefs k.body).filterMap laEntry).foldl (keyPush (·.index)) []
      := by
    rw [hla]
    have : st.local_arrays = st.obs.local_arrays := rfl
    rw [this, hobs, foldl_updObs_local]
    rfl
  refine ⟨hsm, hlm, ?_, ?_, ?_, ?_, ?_, ?_, ?_⟩
  · rw [hsm]
    exact foldl_keyPush_nodup _ _ [] (by simp)
  · rw [hlm]
    exact foldl_keyPush_nodup _ _ [] (by simp)
  · intro e he
    rw [hsm]
    exact foldl_keyPush_covers _ _ [] e he
  · intro e he
    rw [hlm]
    exact foldl_keyPush_covers _ _ [] e he
  · intro d hd
    rw [hsm] at hd
    rcases foldl_keyPush_first _ _ [] d hd with hmem | ⟨_, hfind⟩
    · simp at hmem
    · exact hfind
  · intro d hd
    rw [hlm] at hd
    rcases foldl_keyPush_first _ _ [] d hd with hmem | ⟨_, hfind⟩
    · simp at hmem
    · exact hfind
  · rw [hbody]
    exact (noSliceMaster (sizeOf k.body)).1 k.body _ st instrs le_rfl hsc

/-- A kernel whose body references `SharedMemory{id=3, length=256}` several
times (the spec's shared-memory dedup scenario). -/
def kernelShared3 : KernelDefinition :=
  { inputs := []
    outputs := [⟨.storage, .readWrite, ⟨.float .f32, none⟩, none, false⟩]
    named := []
    cube_dim := ⟨1, 1, 1⟩
    body := .mk [] []
      [(.operator (.add ⟨⟨.sharedMemory 3 256, ⟨.float .f32, none⟩⟩,
          ⟨.sharedMemory 3 256, ⟨.float .f32, none⟩⟩⟩),
        some ⟨.sharedMemory 3 256, ⟨.float .f32, none⟩⟩),
       (.operator (.mul ⟨⟨.sharedMemory 3 256, ⟨.float .f32, none⟩⟩,
          ⟨.sharedMemory 3 256, ⟨.float .f32, none⟩⟩⟩),
        some ⟨.sharedMemory 3 256, ⟨.float .f32, none⟩⟩)] }

/-- Witness for C5: `kernelShared3` declares exactly one shared memory,
`index = 3`, `length = 256`. -/
theorem shared_local_declaration_invariants_witness :
    (compileKernel kernelShared3 .checked).map (fun s => s.shared_memories)
      = .ok [⟨3, .scalar .f32, 256⟩] := by
  obtain ⟨s, hs⟩ : ∃ s, compileKernel kernelShared3 .checked = .ok s :=
    ⟨_, rfl⟩
  have ht := shared_local_declaration_invariants kernelShared3 .checked s hs
  rw [hs]
  simp only [Except.map, Except.ok.injEq]
  rw [ht.1]
  rfl

/-! ## C6: extension collection -/

mutual

/-- The raw, duplicate-keeping trace of required extensions, in source
order, following the collection rules: `Powf` requires `PowfPrimitive` plus
`PowfScalar` (scalar or 1-lane `rhs`) or `Powf`, `Erf` requires `Erf`, and
`If` / `IfElse` / `Loop` / `RangeLoop` recurse into their children.  This is
the specification-side description the collector is measured against. -/
def extensionTrace : List Instr → List Extension
  | [] => []
  | i :: rest => instrTrace i ++ extensionTrace rest

def instrTrace : Instr → List Extension
  | .powf _ rhs out =>
    if rhs.isAlwaysScalar || rhs.item.vectorizationFactor == 1 then
      [.powfPrimitive out.item, .powfScalar out.item]
    else
      [.powfPrimitive out.item, .powf out.item]
  | .erf input _ => [.erf input.item]
  | .ifCond _ instructions => extensionTrace instructions
  | .ifElse _ instructionsIf instructionsElse =>
    extensionTrace instructionsIf ++ extensionTrace instructionsElse
  | .loop instructions => extensionTrace instructions
  | .rangeLoop _ _ _ _ _ instructions => extensionTrace instructions
  | _ => []

end

theorem mem_regExtAux {acc : List Extension} {x e : Extension} :
    e ∈ regExtAux acc x ↔ e ∈ acc ∨ e = x := by
  unfold regExtAux
  split
  · rename_i hx
    constructor
    · exact Or.inl
    · rintro (he | rfl)
      · exact he
      · exact hx
  · simp

theorem mem_foldl_regExtAux :
    ∀ (l acc : List Extension) (e : Extension),
      e ∈ l.foldl regExtAux acc ↔ e ∈ acc ∨ e ∈ l := by
  intro l
  induction l with
  | nil => simp
  | cons x rest ihl =>
    intro acc e
    simp only [List.foldl_cons, ihl, mem_regExtAux, List.mem_cons]
    tauto

theorem foldl_regExtAux_push (acc b : List Extension) (x : Extension) :
    (regExtAux b x).foldl regExtAux acc
      = regExtAux (b.foldl regExtAux acc) x := by
  unfold regExtAux
  split
  · rename_i hx
    split
    · rfl
    · rename_i hnx
      exact absurd ((mem_foldl_regExtAux b acc x).mpr (Or.inr hx)) hnx
  · rw [List.foldl_append]
    rfl

theorem foldl_regExtAux_assoc :
    ∀ (l b acc : List Extension),
      (l.foldl regExtAux b).foldl regExtAux acc
        = l.foldl regExtAux (b.foldl regExtAux acc) := by
  intro l
  induction l with
  | nil => intro b acc; rfl
  | cons x rest ihl =>
    intro b acc
    simp only [List.foldl_cons]
    rw [ihl (regExtAux b x) acc, foldl_regExtAux_push]

theorem foldl_regExtAux_nodup :
    ∀ (l acc : List Extension), acc.Nodup → (l.foldl regExtAux acc).Nodup := by
  intro l
  induction l with
  | nil => intro acc h; exact h
  | cons x rest ihl =>
    intro acc h
    refine ihl (regExtAux acc x) ?_
    unfold regExtAux
    split
    · exact h
    · rename_i hx
      simp only [List.nodup_append, List.nodup_singleton]
      exact ⟨h, trivial, by simpa using fun hmem => hx hmem⟩

theorem instr_one_le_sizeOf (i : Instr) : 1 ≤ sizeOf i := by
  cases i <;> simp_arith

theorem regExt_master : ∀ n : Nat,
    (∀ (instrs : List Instr) (acc : List Extension), sizeOf instrs ≤ n →
      regExtGo acc instrs = (extensionTrace instrs).foldl regExtAux acc)
    ∧ (∀ (i : Instr) (acc : List Extension), sizeOf i ≤ n →
      regExtStep acc i = (instrTrace i).foldl regExtAux acc) := by
  intro n
  induction n with
  | zero =>
    constructor
    · intro instrs acc hs
      cases instrs with
      | nil => simp only [regExtGo, extensionTrace, List.foldl_nil]
      | cons i rest => simp_arith at hs
    · intro i acc hs
      have := instr_one_le_sizeOf i
      omega
  | succ n ih =>
    obtain ⟨ihL, ihI⟩ := ih
    constructor
    · intro instrs acc hs
      cases instrs with
      | nil => simp only [regExtGo, extensionTrace, List.foldl_nil]
      | cons i rest =>
        have hsz : sizeOf i ≤ n ∧ sizeOf rest ≤ n := by
          simp_arith at hs
          omega
        simp only [regExtGo, extensionTrace, List.foldl_append]
        rw [ihL rest _ hsz.2, ihI i acc hsz.1]
    · intro i acc hs
      cases i
      case powf lhs rhs out =>
        simp only [regExtStep, instrTrace]
        split <;> rfl
      case erf input out =>
        simp only [regExtStep, instrTrace, List.foldl_cons, List.foldl_nil]
      case ifCond cond instructions =>
        have hsz : sizeOf instructions ≤ n := by
          simp_arith at hs
          omega
        simp only [regExtStep, instrTrace, registerExtensions]
        rw [ihL instructions [] hsz, foldl_regExtAux_assoc]
        simp only [List.foldl_nil]
      case ifElse cond instructionsIf instructionsElse =>
        have hsz : sizeOf instructionsIf ≤ n
            ∧ sizeOf instructionsElse ≤ n := by
          simp_arith at hs
          omega
        simp only [regExtStep, instrTrace, registerExtensions,
          List.foldl_append]
        rw [ihL instructionsIf [] hsz.1, ihL instructionsElse [] hsz.2,
          foldl_regExtAux_assoc, foldl_regExtAux_assoc]
        rfl
      case loop instructions =>
        have hsz : sizeOf instructions ≤ n := by
          simp_arith at hs
          omega
        simp only [regExtStep, instrTrace, registerExtensions]
        rw [ihL instructions [] hsz, foldl_regExtAux_assoc]
        simp only [List.foldl_nil]
      case rangeLoop i start stop step inclusive instructions =>
        have hsz : sizeOf instructions ≤ n := by
          simp_arith at hs
          omega
        simp only [regExtStep, instrTrace, registerExtensions]
        rw [ihL instructions [] hsz, foldl_regExtAux_assoc]
        simp only [List.foldl_nil]
      all_goals simp only [regExtStep, instrTrace, List.foldl_nil]

/-- C6.  `register_extensions` returns exactly the first-occurrence
dedup (the dedup-push fold) of the required-extension trace: `PowfPrimitive`
for every `Powf` plus `PowfScalar` (scalar or 1-lane `rhs`) or `Powf`, and
`Erf` for every `Erf`, recursing into `If`, `IfElse`, `Loop` and `RangeLoop`
children; the result is duplicate-free, contains exactly the required
extensions, and on the spec's two-`Powf` example yields `PowfPrimitive`,
`PowfScalar`, `Powf` over `vec4<f32>` in that order. -/
theorem register_extensions_characterization :
    (∀ instrs : List Instr,
      registerExtensions instrs = (extensionTrace instrs).foldl regExtAux []
      ∧ (registerExtensions instrs).Nodup
      ∧ ∀ e : Extension,
          e ∈ registerExtensions instrs ↔ e ∈ extensionTrace instrs)
    ∧ registerExtensions
        [.powf (.globalInputArray 0 (.vec4 .f32))
            (.globalScalar 0 .f32 (.float .f32))
            (.localVar 0 (.vec4 .f32) 0),
         .powf (.globalInputArray 0 (.vec4 .f32))
            (.globalInputArray 1 (.vec4 .f32))
            (.localVar 0 (.vec4 .f32) 0)]
      = [.powfPrimitive (.vec4 .f32), .powfScalar (.vec4 .f32),
         .powf (.vec4 .f32)] := by
  constructor
  · intro instrs
    have hrun : registerExtensions instrs
        = (extensionTrace instrs).foldl regExtAux [] := by
      rw [show registerExtensions instrs = regExtGo [] instrs from by
        simp only [registerExtensions]]
      exact (regExt_master (sizeOf instrs)).1 instrs [] le_rfl
    refine ⟨hrun, ?_, ?_⟩
    · rw [hrun]
      exact foldl_regExtAux_nodup _ [] List.nodup_nil
    · intro e
      rw [hrun, mem_foldl_regExtAux]
      simp
  · simp [registerExtensions, regExtGo, regExtStep, regExtAux,
      WVar.isAlwaysScalar, WVar.item, WItem.vectorizationFactor]

/-! ## C9: failure modes of the lowering -/

/-- Whether a variable is a global input or output array. -/
def isGlobalArray (v : Variable) : Bool :=
  match v.kind with
  | .globalInputArray _ => true
  | .globalOutputArray _ => true
  | _ => false

/-- The precondition on metadata requests: rank/shape/stride target global
arrays.  (`Length`/`BufferLength` handle non-global variables.) -/
def wfMeta : MetaOp → Bool
  | .rank var => isGlobalArray var
  | .stride _ var => isGlobalArray var
  | .shape _ var => isGlobalArray var
  | .length _ => true
  | .bufferLength _ => true

mutual

/-- The claim's precondition: every operation whose lowering names an `out`
variable carries one, and rank/shape/stride metadata requests target global
arrays — recursively through all nested scopes. -/
def wfScope : Scope → Bool
  | .mk _ _ ops => wfOps ops

def wfOps : List (Operation × Option Variable) → Bool
  | [] => true
  | (op, out) :: rest => wfOperation op out && wfOps rest

def wfOperation : Operation → Option Variable → Bool
  | .copy _, out => out.isSome
  | .operator _, out => out.isSome
  | .atomic _, out => out.isSome
  | .metadataOp m, out => out.isSome && wfMeta m
  | .branch b, _ => wfBranch b
  | .synchronization _, _ => true
  | .subcube _, out => out.isSome
  | .coopMma, _ => true

def wfBranch : Branch → Bool
  | .ifCond _ scope => wfScope scope
  | .ifElse _ sIf sElse => wfScope sIf && wfScope sElse
  | .switch _ sDefault cases => wfScope sDefault && wfCases cases
  | .ret => true
  | .brk => true
  | .rangeLoop _ _ _ _ _ scope => wfScope scope
  | .loop scope => wfScope scope

def wfCases : List (Variable × Scope) → Bool
  | [] => true
  | (_, scope) :: rest => wfScope scope && wfCases rest

end

/-- Errors other than the two `out`/`ext_meta_pos` invariant violations. -/
def benign : CErr → Bool
  | .missingOut => false
  | .nonGlobalMeta => false
  | _ => true

theorem compileElem_benign {el : Elem} {e : CErr}
    (h : compileElem el = .error e) : benign e = true := by
  rcases el with k | k | k | _ | k | k
  case bool => simp [compileElem] at h
  all_goals cases k <;> simp_all [compileElem] <;> (rw [← h]; rfl)

theorem compileItem_benign {it : Item} {e : CErr}
    (h : compileItem it = .error e) : benign e = true := by
  unfold compileItem at h
  cases hce : compileElem it.elem
  · rw [hce] at h
    simp only [Except.error.injEq] at h
    rw [← h]
    exact compileElem_benign hce
  · rw [hce] at h
    simp only [] at h
    rcases hv : it.vectorization.getD 1 with _ | _ | _ | _ | _ | m <;>
      rw [hv] at h <;> simp_all <;> (rw [← h]; rfl)

theorem compileVariable_benign {st : CState} {v : Variable} {e : CErr}
    (h : compileVariable st v = .error e) : benign e = true := by
  obtain ⟨kind, item⟩ := v
  cases kind
  case globalScalar id =>
    cases hce : compileElem item.elem <;> simp [compileVariable, hce] at h
    rw [← h]
    exact compileElem_benign hce
  case constantScalar c =>
    cases hce : compileElem c.elem <;> simp [compileVariable, hce] at h
    rw [← h]
    exact compileElem_benign hce
  case sharedMemory id length =>
    cases hci : compileItem item
    · simp only [compileVariable, hci] at h
      simp only [Except.error.injEq] at h
      rw [← h]
      exact compileItem_benign hci
    · simp only [compileVariable, hci] at h
      split at h <;> simp at h
  case localArray id depth length =>
    cases hci : compileItem item
    · simp only [compileVariable, hci] at h
      simp only [Except.error.injEq] at h
      rw [← h]
      exact compileItem_benign hci
    · simp only [compileVariable, hci] at h
      split at h <;> simp at h
  case builtin b => cases b <;> simp [compileVariable] at h
  case matrix =>
    simp [compileVariable] at h
    rw [← h]
    rfl
  all_goals
    (cases hci : compileItem item <;> simp [compileVariable, hci] at h
     rw [← h]
     exact compileItem_benign hci)

theorem cv1_benign {st : CState} {a : Variable} {k : WVar → Instr} {e : CErr}
    (h : cv1 st a k = .error e) : benign e = true := by
  unfold cv1 at h
  cases hca : compileVariable st a
  · rw [hca] at h
    simp only [Except.error.injEq] at h
    rw [← h]
    exact compileVariable_benign hca
  · rename_i p
    obtain ⟨st1, wa⟩ := p
    rw [hca] at h
    simp at h

theorem cv2_benign {st : CState} {a b : Variable} {k : WVar → WVar → Instr}
    {e : CErr} (h : cv2 st a b k = .error e) : benign e = true := by
  unfold cv2 at h
  cases hca : compileVariable st a
  · rw [hca] at h
    simp only [Except.error.injEq] at h
    rw [← h]
    exact compileVariable_benign hca
  · rename_i p
    obtain ⟨st1, wa⟩ := p
    rw [hca] at h
    simp only [] at h
    exact cv1_benign h

theorem cv3_benign {st : CState} {a b c : Variable}
    {k : WVar → WVar → WVar → Instr} {e : CErr}
    (h : cv3 st a b c k = .error e) : benign e = true := by
  unfold cv3 at h
  cases hca : compileVariable st a
  · rw [hca] at h
    simp only [Except.error.injEq] at h
    rw [← h]
    exact compileVariable_benign hca
  · rename_i p
    obtain ⟨st1, wa⟩ := p
    rw [hca] at h
    simp only [] at h
    exact cv2_benign h

theorem cv4_benign {st : CState} {a b c d : Variable}
    {k : WVar → WVar → WVar → WVar → Instr} {e : CErr}
    (h : cv4 st a b c d k = .error e) : benign e = true := by
  unfold cv4 at h
  cases hca : compileVariable st a
  · rw [hca] at h
    simp only [Except.error.injEq] at h
    rw [← h]
    exact compileVariable_benign hca
  · rename_i p
    obtain ⟨st1, wa⟩ := p
    rw [hca] at h
    simp only [] at h
    exact cv3_benign h

theorem cvList_benign {vs : List Variable} :
    ∀ {st : CState} {e : CErr}, cvList st vs = .error e →
      benign e = true := by
  induction vs with
  | nil => intro st e h; simp [cvList] at h
  | cons v rest ih =>
    intro st e h
    simp only [cvList] at h
    cases hcv : compileVariable st v
    · rw [hcv] at h
      simp only [Except.error.injEq] at h
      rw [← h]
      exact compileVariable_benign hcv
    · rename_i p
      obtain ⟨st1, w⟩ := p
      rw [hcv] at h
      simp only [] at h
      cases hrest : cvList st1 rest
      · rw [hrest] at h
        simp only [Except.error.injEq] at h
        rw [← h]
        exact ih hrest
      · rename_i q
        obtain ⟨st2, ws⟩ := q
        rw [hrest] at h
        simp at h

theorem compileConstArrs_benign {cas : List ConstArrDecl} :
    ∀ {st : CState} {e : CErr}, compileConstArrs st cas = .error e →
      benign e = true := by
  induction cas with
  | nil => intro st e h; simp [compileConstArrs] at h
  | cons d rest ih =>
    intro st e h
    simp only [compileConstArrs] at h
    cases hidx : d.var.index
    · rw [hidx] at h
      simp only [Except.error.injEq] at h
      rw [← h]
      rfl
    · rw [hidx] at h
      simp only [] at h
      cases hit : compileItem d.var.item
      · rw [hit] at h
        simp only [Except.error.injEq] at h
        rw [← h]
        exact compileItem_benign hit
      · rw [hit] at h
        simp only [] at h
        cases hvs : cvList st d.values
        · rw [hvs] at h
          simp only [Except.error.injEq] at h
          rw [← h]
          exact cvList_benign hvs
        · rename_i p
          obtain ⟨st1, ws⟩ := p
          rw [hvs] at h
          simp only [] at h
          cases hrest : compileConstArrs st1 rest
          · rw [hrest] at h
            simp only [Except.error.injEq] at h
            rw [← h]
            exact ih hrest
          · rename_i q
            obtain ⟨st2, ds⟩ := q
            rw [hrest] at h
            simp at h

theorem compileDecls_benign {vs : List Variable} :
    ∀ {st : CState} {e : CErr}, compileDecls st vs = .error e →
      benign e = true := by
  induction vs with
  | nil => intro st e h; simp [compileDecls] at h
  | cons v rest ih =>
    intro st e h
    simp only [compileDecls] at h
    by_cases hsk : v.isSliceKind
    · rw [if_pos hsk] at h
      exact ih h
    · rw [if_neg hsk] at h
      cases hcv : compileVariable st v
      · rw [hcv] at h
        simp only [Except.error.injEq] at h
        rw [← h]
        exact compileVariable_benign hcv
      · rename_i p
        obtain ⟨st1, w⟩ := p
        rw [hcv] at h
        simp only [] at h
        cases hrest : compileDecls st1 rest
        · rw [hrest] at h
          simp only [Except.error.injEq] at h
          rw [← h]
          exact ih hrest
        · rename_i q
          obtain ⟨st2, is2⟩ := q
          rw [hrest] at h
          simp at h

theorem extMetaPos_benign {st : CState} {v : Variable} {e : CErr}
    (hg : isGlobalArray v = true) (h : extMetaPos st v = .error e) :
    benign e = true := by
  obtain ⟨kind, item⟩ := v
  cases kind <;> simp [isGlobalArray] at hg <;>
    (simp only [extMetaPos] at h
     split at h <;> simp_all
     rw [← h]
     rfl)

theorem compileInstr_benign {st : CState} {value : Operator} {o : Variable}
    {e : CErr} (h : compileInstr st value (some o) = .error e) :
    benign e = true := by
  cases value <;>
    first
      | exact cv2_benign h
      | exact cv3_benign h
      | exact cv4_benign h
      | skip
  case initLine op =>
    simp only [compileInstr] at h
    cases hl : cvList st op.inputs
    · rw [hl] at h
      simp only [Except.error.injEq] at h
      rw [← h]
      exact cvList_benign hl
    · rename_i p
      obtain ⟨st1, ws⟩ := p
      rw [hl] at h
      simp only [] at h
      exact cv1_benign h

theorem compileAtomic_benign {st : CState} {atomic : AtomicOp} {o : Variable}
    {e : CErr} (h : compileAtomic st atomic (some o) = .error e) :
    benign e = true := by
  cases atomic <;>
    first
      | exact cv2_benign h
      | exact cv3_benign h
      | exact cv4_benign h

theorem compileSubgroup_benign {st : CState} {subgroup : Subcube}
    {o : Variable} {e : CErr}
    (h : compileSubgroup st subgroup (some o) = .error e) :
    benign e = true := by
  cases subgroup <;>
    first
      | exact cv1_benign h
      | exact cv2_benign h
      | exact cv3_benign h

theorem compileMetadata_benign {st : CState} {metadata : MetaOp}
    {o : Variable} {e : CErr} (hwf : wfMeta metadata = true)
    (h : compileMetadata st metadata (some o) = .error e) :
    benign e = true := by
  cases metadata with
  | rank var =>
    simp only [compileMetadata] at h
    cases hm : extMetaPos st var
    · rw [hm] at h
      simp only [Except.error.injEq] at h
      rw [← h]
      exact extMetaPos_benign hwf hm
    · rw [hm] at h
      simp only [] at h
      exact cv2_benign h
  | stride dim var =>
    simp only [compileMetadata] at h
    cases hm : extMetaPos st var
    · rw [hm] at h
      simp only [Except.error.injEq] at h
      rw [← h]
      exact extMetaPos_benign hwf hm
    · rw [hm] at h
      simp only [] at h
      exact cv3_benign h
  | shape dim var =>
    simp only [compileMetadata] at h
    cases hm : extMetaPos st var
    · rw [hm] at h
      simp only [Except.error.injEq] at h
      rw [← h]
      exact extMetaPos_benign hwf hm
    · rw [hm] at h
      simp only [] at h
      exact cv3_benign h
  | length var =>
    obtain ⟨kind, item⟩ := var
    cases kind <;>
      first
        | exact cv2_benign h
        | (simp only [compileMetadata] at h
           exact cv2_benign h)
  | bufferLength var =>
    obtain ⟨kind, item⟩ := var
    cases kind <;>
      first
        | exact cv2_benign h
        | (simp only [compileMetadata] at h
           exact cv2_benign h)

/-- Under the well-formedness precondition, the lowering never fails with
`missingOut` or `nonGlobalMeta`. -/
theorem wfMaster : ∀ n : Nat,
    (∀ (s : Scope) (st : CState) (e : CErr), sizeOf s ≤ n →
      wfScope s = true → compileScope st s = .error e → benign e = true)
    ∧ (∀ (ops : List (Operation × Option Variable)) (st : CState)
        (e : CErr), sizeOf ops ≤ n →
      wfOps ops = true → compileOps st ops = .error e → benign e = true)
    ∧ (∀ (op : Operation) (out : Option Variable) (st : CState) (e : CErr),
      sizeOf op ≤ n → wfOperation op out = true →
      compileOperation st op out = .error e → benign e = true)
    ∧ (∀ (b : Branch) (st : CState) (e : CErr), sizeOf b ≤ n →
      wfBranch b = true → compileBranch st b = .error e → benign e = true)
    ∧ (∀ (cs : List (Variable × Scope)) (st : CState) (e : CErr),
      sizeOf cs ≤ n → wfCases cs = true →
      compileCases st cs = .error e → benign e = true) := by
  intro n
  induction n with
  | zero =>
    refine ⟨?_, ?_, ?_, ?_, ?_⟩
    · intro s st e hs
      have := scope_one_le_sizeOf s
      omega
    · intro ops st e hs hwf h
      cases ops with
      | nil => simp [compileOps] at h
      | cons p rest => simp_arith at hs
    · intro op out st e hs
      have := operation_one_le_sizeOf op
      omega
    · intro b st e hs
      have := branch_one_le_sizeOf b
      omega
    · intro cs st e hs hwf h
      cases cs with
      | nil => simp [compileCases] at h
      | cons p rest => simp_arith at hs
  | succ n ih =>
    obtain ⟨ihS, ihO, ihP, ihB, ihC⟩ := ih
    refine ⟨?_, ?_, ?_, ?_, ?_⟩
    · -- compileScope
      intro s st e hs hwf h
      obtain ⟨cas, vars, ops⟩ := s
      have hops : sizeOf ops ≤ n := by
        simp_arith at hs
        omega
      have hwfops : wfOps ops = true := by
        simpa [wfScope] using hwf
      simp only [compileScope] at h
      cases hca : compileConstArrs st cas
      · rw [hca] at h
        simp only [Except.error.injEq] at h
        rw [← h]
        exact compileConstArrs_benign hca
      · rename_i p
        obtain ⟨st1, arrs⟩ := p
        rw [hca] at h
        simp only [] at h
        cases hd : compileDecls
            { st1 with const_arrays := st1.const_arrays ++ arrs } vars
        · rw [hd] at h
          simp only [Except.error.injEq] at h
          rw [← h]
          exact compileDecls_benign hd
        · rename_i q
          obtain ⟨st3, decls⟩ := q
          rw [hd] at h
          simp only [] at h
          cases hop : compileOps st3 ops
          · rw [hop] at h
            simp only [Except.error.injEq] at h
            rw [← h]
            exact ihO ops st3 _ hops hwfops hop
          · rename_i q2
            obtain ⟨st4, instrs⟩ := q2
            rw [hop] at h
            simp at h
    · -- compileOps
      intro ops st e hs hwf h
      cases ops with
      | nil => simp [compileOps] at h
      | cons p rest =>
        obtain ⟨op, out⟩ := p
        have hsz : sizeOf op ≤ n ∧ sizeOf rest ≤ n := by
          simp_arith at hs
          omega
        simp only [wfOps, Bool.and_eq_true] at hwf
        simp only [compileOps] at h
        cases hco : compileOperation st op out
        · rw [hco] at h
          simp only [Except.error.injEq] at h
          rw [← h]
          exact ihP op out st _ hsz.1 hwf.1 hco
        · rename_i p2
          obtain ⟨st1, instr⟩ := p2
          rw [hco] at h
          simp only [] at h
          cases hrest : compileOps st1 rest
          · rw [hrest] at h
            simp only [Except.error.injEq] at h
            rw [← h]
            exact ihO rest st1 _ hsz.2 hwf.2 hrest
          · rename_i q
            obtain ⟨st2, instrs⟩ := q
            rw [hrest] at h
            simp at h
    · -- compileOperation
      intro op out st e hs hwf h
      cases op with
      | copy vin =>
        simp only [wfOperation, Option.isSome_iff_exists] at hwf
        obtain ⟨o, rfl⟩ := hwf
        simp only [compileOperation] at h
        cases hcv : compileVariable st vin
        · rw [hcv] at h
          simp only [Except.error.injEq] at h
          rw [← h]
          exact compileVariable_benign hcv
        · rename_i p
          obtain ⟨st1, wv⟩ := p
          rw [hcv] at h
          simp only [] at h
          cases hco : compileVariable st1 o
          · rw [hco] at h
            simp only [Except.error.injEq] at h
            rw [← h]
            exact compileVariable_benign hco
          · rename_i q
            obtain ⟨st2, wo⟩ := q
            rw [hco] at h
            simp at h
      | operator o =>
        simp only [wfOperation, Option.isSome_iff_exists] at hwf
        obtain ⟨ov, rfl⟩ := hwf
        simp only [compileOperation] at h
        exact compileInstr_benign h
      | atomic a =>
        simp only [wfOperation, Option.isSome_iff_exists] at hwf
        obtain ⟨ov, rfl⟩ := hwf
        simp only [compileOperation] at h
        exact compileAtomic_benign h
      | metadataOp m =>
        simp only [wfOperation, Bool.and_eq_true,
          Option.isSome_iff_exists] at hwf
        obtain ⟨⟨ov, rfl⟩, hm⟩ := hwf
        simp only [compileOperation] at h
        exact compileMetadata_benign hm h
      | branch b =>
        have hb : sizeOf b ≤ n := by
          simp_arith at hs
          omega
        simp only [compileOperation] at h
        exact ihB b st _ hb (by simpa [wfOperation] using hwf) h
      | synchronization s =>
        cases s <;> simp [compileOperation] at h
      | coopMma =>
        simp only [compileOperation, Except.error.injEq] at h
        rw [← h]
        rfl
      | subcube s =>
        simp only [wfOperation, Option.isSome_iff_exists] at hwf
        obtain ⟨ov, rfl⟩ := hwf
        simp only [compileOperation] at h
        exact compileSubgroup_benign h
    · -- compileBranch
      intro b st e hs hwf h
      cases b with
      | ifCond cond scope =>
        have hsc : sizeOf scope ≤ n := by
          simp_arith at hs
          omega
        simp only [wfBranch] at hwf
        simp only [compileBranch] at h
        cases hcv : compileVariable st cond
        · rw [hcv] at h
          simp only [Except.error.injEq] at h
          rw [← h]
          exact compileVariable_benign hcv
        · rename_i p
          obtain ⟨st1, wcond⟩ := p
          rw [hcv] at h
          simp only [] at h
          cases hsc2 : compileScope st1 scope
          · rw [hsc2] at h
            simp only [Except.error.injEq] at h
            rw [← h]
            exact ihS scope st1 _ hsc hwf hsc2
          · rename_i q
            obtain ⟨st2, instrs⟩ := q
            rw [hsc2] at h
            simp at h
      | ifElse cond sIf sElse =>
        have hsz : sizeOf sIf ≤ n ∧ sizeOf sElse ≤ n := by
          simp_arith at hs
          omega
        simp only [wfBranch, Bool.and_eq_true] at hwf
        simp only [compileBranch] at h
        cases hcv : compileVariable st cond
        · rw [hcv] at h
          simp only [Except.error.injEq] at h
          rw [← h]
          exact compileVariable_benign hcv
        · rename_i p
          obtain ⟨st1, wcond⟩ := p
          rw [hcv] at h
          simp only [] at h
          cases h1 : compileScope st1 sIf
          · rw [h1] at h
            simp only [Except.error.injEq] at h
            rw [← h]
            exact ihS sIf st1 _ hsz.1 hwf.1 h1
          · rename_i q
            obtain ⟨st2, iIf⟩ := q
            rw [h1] at h
            simp only [] at h
            cases h2 : compileScope st2 sElse
            · rw [h2] at h
              simp only [Except.error.injEq] at h
              rw [← h]
              exact ihS sElse st2 _ hsz.2 hwf.2 h2
            · rename_i q2
              obtain ⟨st3, iElse⟩ := q2
              rw [h2] at h
              simp at h
      | switch value sDefault cases_ =>
        have hsz : sizeOf sDefault ≤ n ∧ sizeOf cases_ ≤ n := by
          simp_arith at hs
          omega
        simp only [wfBranch, Bool.and_eq_true] at hwf
        simp only [compileBranch] at h
        cases hcv : compileVariable st value
        · rw [hcv] at h
          simp only [Except.error.injEq] at h
          rw [← h]
          exact compileVariable_benign hcv
        · rename_i p
          obtain ⟨st1, wvalue⟩ := p
          rw [hcv] at h
          simp only [] at h
          cases h1 : compileScope st1 sDefault
          · rw [h1] at h
            simp only [Except.error.injEq] at h
            rw [← h]
            exact ihS sDefault st1 _ hsz.1 hwf.1 h1
          · rename_i q
            obtain ⟨st2, iDefault⟩ := q
            rw [h1] at h
            simp only [] at h
            cases h2 : compileCases st2 cases_
            · rw [h2] at h
              simp only [Except.error.injEq] at h
              rw [← h]
              exact ihC cases_ st2 _ hsz.2 hwf.2 h2
            · rename_i q2
              obtain ⟨st3, wcases⟩ := q2
              rw [h2] at h
              simp at h
      | ret => simp [compileBranch] at h
      | brk => simp [compileBranch] at h
      | rangeLoop i start stop step inclusive scope =>
        have hsc : sizeOf scope ≤ n := by
          simp_arith at hs
          omega
        simp only [wfBranch] at hwf
        simp only [compileBranch] at h
        cases hi : compileVariable st i
        · rw [hi] at h
          simp only [Except.error.injEq] at h
          rw [← h]
          exact compileVariable_benign hi
        · rename_i p
          obtain ⟨st1, wi⟩ := p
          rw [hi] at h
          simp only [] at h
          cases hst : compileVariable st1 start
          · rw [hst] at h
            simp only [Except.error.injEq] at h
            rw [← h]
            exact compileVariable_benign hst
          · rename_i q
            obtain ⟨st2, wstart⟩ := q
            rw [hst] at h
            simp only [] at h
            cases hsp : compileVariable st2 stop
            · rw [hsp] at h
              simp only [Except.error.injEq] at h
              rw [← h]
              exact compileVariable_benign hsp
            · rename_i q2
              obtain ⟨st3, wstop⟩ := q2
              rw [hsp] at h
              simp only [] at h
              cases step with
              | none =>
                simp only [] at h
                cases hscope : compileScope st3 scope
                · rw [hscope] at h
                  simp only [Except.error.injEq] at h
                  rw [← h]
                  exact ihS scope st3 _ hsc hwf hscope
                · rename_i q3
                  obtain ⟨st4, instrs⟩ := q3
                  rw [hscope] at h
                  simp at h
              | some stepVar =>
                simp only [] at h
                cases hsv : compileVariable st3 stepVar
                · rw [hsv] at h
                  simp only [Except.error.injEq] at h
                  rw [← h]
                  exact compileVariable_benign hsv
                · rename_i q3
                  obtain ⟨st4, wstep⟩ := q3
                  rw [hsv] at h
                  simp only [] at h
                  cases hscope : compileScope st4 scope
                  · rw [hscope] at h
                    simp only [Except.error.injEq] at h
                    rw [← h]
                    exact ihS scope st4 _ hsc hwf hscope
                  · rename_i q4
                    obtain ⟨st5, instrs⟩ := q4
                    rw [hscope] at h
                    simp at h
      | loop scope =>
        have hsc : sizeOf scope ≤ n := by
          simp_arith at hs
          omega
        simp only [wfBranch] at hwf
        simp only [compileBranch] at h
        cases hscope : compileScope st scope
        · rw [hscope] at h
          simp only [Except.error.injEq] at h
          rw [← h]
          exact ihS scope st _ hsc hwf hscope
        · rename_i q
          obtain ⟨st1, instrs⟩ := q
          rw [hscope] at h
          simp at h
    · -- compileCases
      intro cs st e hs hwf h
      cases cs with
      | nil => simp [compileCases] at h
      | cons p rest =>
        obtain ⟨val, scope⟩ := p
        have hsz : sizeOf scope ≤ n ∧ sizeOf rest ≤ n := by
          simp_arith at hs
          omega
        simp only [wfCases, Bool.and_eq_true] at hwf
        simp only [compileCases] at h
        cases hcv : compileVariable st val
        · rw [hcv] at h
          simp only [Except.error.injEq] at h
          rw [← h]
          exact compileVariable_benign hcv
        · rename_i p2
          obtain ⟨st1, wval⟩ := p2
          rw [hcv] at h
          simp only [] at h
          cases h1 : compileScope st1 scope
          · rw [h1] at h
            simp only [Except.error.injEq] at h
            rw [← h]
            exact ihS scope st1 _ hsz.1 hwf.1 h1
          · rename_i q
            obtain ⟨st2, instrs⟩ := q
            rw [h1] at h
            simp only [] at h
            cases h2 : compileCases st2 rest
            · rw [h2] at h
              simp only [Except.error.injEq] at h
              rw [← h]
              exact ihC rest st2 _ hsz.2 hwf.2 h2
            · rename_i q2
              obtain ⟨st3, ws⟩ := q2
              rw [h2] at h
              simp at h

/-- C9 (amended).  At the `out`/metadata interface the lowering has exactly
two invariant-violation failure modes: an operation of the operator,
atomic, metadata, or subgroup family supplied with no `out` fails with
`missingOut` — and so does a copy operation whose input variable lowers
successfully, since the source compiles the copy input before unwrapping
`out` — and `ext_meta_pos` on a variable that is not a global input/output
array fails with `nonGlobalMeta`; under the precondition that every such
operation carries an `out` and rank/shape/stride metadata requests target
global arrays, neither failure is reachable anywhere in a scope lowering
(failures of other kinds — unsupported types, vectorizations, features —
are outside these two branches). -/
theorem lowering_failure_modes :
    (∀ (st st1 : CState) (v : Variable) (w : WVar),
      compileVariable st v = .ok (st1, w) →
      compileOperation st (.copy v) none = .error .missingOut)
    ∧ (∀ (st : CState) (o : Operator),
      compileOperation st (.operator o) none = .error .missingOut)
    ∧ (∀ (st : CState) (a : AtomicOp),
      compileOperation st (.atomic a) none = .error .missingOut)
    ∧ (∀ (st : CState) (m : MetaOp),
      compileOperation st (.metadataOp m) none = .error .missingOut)
    ∧ (∀ (st : CState) (s : Subcube),
      compileOperation st (.subcube s) none = .error .missingOut)
    ∧ (∀ (st : CState) (v : Variable), isGlobalArray v = false →
      extMetaPos st v = .error .nonGlobalMeta)
    ∧ (∀ (s : Scope) (st : CState) (e : CErr), wfScope s = true →
      compileScope st s = .error e →
      e ≠ .missingOut ∧ e ≠ .nonGlobalMeta) := by
  refine ⟨?_, ?_, ?_, ?_, ?_, ?_, ?_⟩
  · intro st st1 v w hv
    simp only [compileOperation]
    rw [hv]
  · intro st o
    simp [compileOperation, compileInstr]
  · intro st a
    simp [compileOperation, compileAtomic]
  · intro st m
    simp [compileOperation, compileMetadata]
  · intro st s
    simp [compileOperation, compileSubgroup]
  · intro st v hg
    obtain ⟨kind, item⟩ := v
    cases kind <;> simp_all [isGlobalArray, extMetaPos]
  · intro s st e hwf h
    have hb := (wfMaster (sizeOf s)).1 s st e le_rfl hwf h
    cases e <;> simp_all [benign]

/-- Counterexample for C9 as stated: a copy operation supplied with no
`out` does not always fail with the invariant violation — with an `f16`
input variable the input compiles first and the failure is the type error,
not `missingOut`. -/
theorem lowering_failure_modes_counterexample :
    compileOperation defaultCState
        (.copy ⟨.localVar 0 0, ⟨.float .f16, none⟩⟩) none
      = .error .unsupportedType
    ∧ CErr.unsupportedType ≠ CErr.missingOut := by
  exact ⟨rfl, by decide⟩

/-- Witness for C9 (amended): a copy with a compilable input and no `out`
fails with `missingOut`, and a well-formed scope declaring an `f16` local
fails with `unsupportedType`, which is neither of the two invariant
violations. -/
theorem lowering_failure_modes_witness :
    compileOperation defaultCState
        (.copy ⟨.localVar 0 0, ⟨.float .f32, none⟩⟩) none
      = .error .missingOut
    ∧ compileScope defaultCState
        (.mk [] [⟨.localVar 0 0, ⟨.float .f16, none⟩⟩] [])
      = .error .unsupportedType
    ∧ CErr.unsupportedType ≠ CErr.missingOut
    ∧ CErr.unsupportedType ≠ CErr.nonGlobalMeta := by
  have hc : compileScope defaultCState
      (.mk [] [⟨.localVar 0 0, ⟨.float .f16, none⟩⟩] [])
      = .error .unsupportedType := rfl
  have h := lowering_failure_modes.2.2.2.2.2.2
    (.mk [] [⟨.localVar 0 0, ⟨.float .f16, none⟩⟩] [])
    defaultCState .unsupportedType rfl hc
  have hcopy := lowering_failure_modes.1 defaultCState defaultCState
    ⟨.localVar 0 0, ⟨.float .f32, none⟩⟩ (.localVar 0 (.scalar .f32) 0) rfl
  exact ⟨hcopy, hc, h.1, h.2⟩

end Cubecl
